import Mathlib

/-!
# Verification of the xeno build-engine core

A shallow embedding, in Lean 4, of the recipe/staleness/resolution core of
the xeno incremental build engine, translated from `xeno/recipe.py`,
`xeno/shell.py` and (for the query mode, which is absent from the sources)
the engine behaviour exercised by `test.py`.

Modelling conventions:

* Text is `List Char` (`Str`); Python strings are sequences of characters.
* `datetime` values and mtimes are integers; `timedelta` is the three-way
  type `Td` with `Td.nt` standing for `timedelta.min` and `Td.xt` for
  `timedelta.max` (every difference of two datetimes lies strictly between
  the two extremes, so the embedding is faithful for comparisons).
* The filesystem is an association list from paths to metadata; paths are
  opaque strings compared by equality, and `Path.resolve()` is an arbitrary
  function `Str → Str` passed to the functions that use it.
* Exceptions are the inductive `PyErr`; fallible code returns `Except`.
* `asyncio.gather` starts its coroutines in argument order and returns
  their results in that order, so it is modelled as a left-to-right fold
  threading the state; `gather(..., return_exceptions=True)` collects every
  outcome instead of stopping at the first error, exactly as the source.
* Events, the per-recipe `asyncio.Lock` (the model is single-threaded and
  sequential), the optional `setup` recipe (default `None`), and the
  `as_user` escalation are not modelled; no claim depends on them.
-/

namespace Xeno

/-- Characters; Python strings are modelled as lists of characters. -/
abbrev Str := List Char

/-- The newline character, written without an escape. -/
def nlChar : Char := Char.ofNat 10

/-- Python `sep.join(parts)`: the empty string on an empty list, otherwise
the parts interleaved with the separator. -/
def pyJoin (sep : Str) : List Str → Str
  | [] => []
  | s :: rest => rest.foldl (fun acc t => acc ++ sep ++ t) s

/-- Python `s.split(sep)` for a one-character separator: always returns at
least one (possibly empty) piece; `"".split(c) == [""]`. -/
def pysplit : Str → Char → List Str
  | [], _ => [[]]
  | x :: xs, c =>
    let r := pysplit xs c
    if x = c then [] :: r
    else
      match r with
      | [] => [[x]]
      | y :: ys => (x :: y) :: ys

/-- `small` occurs contiguously inside `big`. -/
def IsSubstr (big small : Str) : Prop := small <:+: big

-- ------------------------------------------------------------------
-- timedelta

/-- Python `timedelta`, restricted to the three shapes the staleness code
produces: `timedelta.min` (`nt`), a difference of two datetimes (`val`),
and `timedelta.max` (`xt`). -/
inductive Td where
  | nt
  | val (n : Int)
  | xt
deriving DecidableEq

/-- `a < b` on timedeltas: `timedelta.min` is below every difference and
`timedelta.max` is above every difference. -/
def Td.ltb : Td → Td → Bool
  | .nt, .nt => false
  | .nt, _ => true
  | .val _, .nt => false
  | .val a, .val b => decide (a < b)
  | .val _, .xt => true
  | .xt, _ => false

/-- Binary minimum as Python computes it (first argument wins ties). -/
def Td.min2 (a b : Td) : Td := if Td.ltb b a then b else a

/-- Binary maximum as Python computes it (first argument wins ties). -/
def Td.max2 (a b : Td) : Td := if Td.ltb a b then b else a

-- ------------------------------------------------------------------
-- exceptions

/-- The exceptions the modelled code can raise.  `buildErr` carries the
failing recipe's sigil and the wrapped message, mirroring
`BuildError.__init__`; `compositeErr` carries the collected sibling
failures, mirroring `CompositeError`. -/
inductive PyErr where
  | runtimeErr (msg : Str)
  | assertionErr (msg : Str)
  | valueErr (msg : Str)
  | keyErr (key : Str)
  | fileNotFound (path : Str)
  | buildErr (sigil : Str) (msg : Str)
  | compositeErr (excs : List PyErr) (msg : Str)

/-- `exc.__class__.__qualname__` for each modelled exception. -/
def PyErr.qualname : PyErr → Str
  | .runtimeErr _ => ("RuntimeError").data
  | .assertionErr _ => ("AssertionError").data
  | .valueErr _ => ("ValueError").data
  | .keyErr _ => ("KeyError").data
  | .fileNotFound _ => ("FileNotFoundError").data
  | .buildErr _ _ => ("BuildError").data
  | .compositeErr _ _ => ("CompositeError").data

/-- The four-space indent used by `CompositeError._compose_message`. -/
def indent4 : Str := ("    ").data

/-- `CompositeError._compose_message`: the headline message followed, for
each nested exception, by its lines indented four spaces, with
`Qualname: ` prefixed to the first line.  `pairs` holds each nested
exception's `(qualname, str(exc))`. -/
def composeMessage (msg : Str) (pairs : List (Str × Str)) : Str :=
  pyJoin [nlChar] (msg :: pairs.flatMap fun p =>
    match pysplit p.2 nlChar with
    | [] => []
    | l0 :: rest =>
      (indent4 ++ (p.1 ++ (": ").data ++ l0)) :: rest.map (fun l => indent4 ++ l))

mutual

/-- Python `str(exc)` for each modelled exception.  A `BuildError` renders
as `[sigil] msg` and a `CompositeError` via `_compose_message`. -/
def PyErr.strOf : PyErr → Str
  | .runtimeErr m => m
  | .assertionErr m => m
  | .valueErr m => m
  | .keyErr k => k
  | .fileNotFound p => p
  | .buildErr sigil m => (("[").data ++ sigil ++ ("] ").data) ++ m
  | .compositeErr excs m => composeMessage m (PyErr.strPairs excs)

/-- `(qualname, str(exc))` for each exception in a list, in order. -/
def PyErr.strPairs : List PyErr → List (Str × Str)
  | [] => []
  | e :: es => (e.qualname, e.strOf) :: PyErr.strPairs es

end

/-- The exceptions among a list of gathered outcomes, in order: the list
comprehension `[e for e in results if isinstance(e, Exception)]`. -/
def collectErrs {α : Type} : List (Except PyErr α) → List PyErr
  | [] => []
  | .error e :: rest => e :: collectErrs rest
  | .ok _ :: rest => collectErrs rest

-- ------------------------------------------------------------------
-- values

/-- Python values flowing through recipe resolution: `None`, strings,
`Path` objects, integers and lists.  Recipe-valued results (the "factory"
shape) are outside this type: `makeRet` below stands for the final value
after `_resolve`'s factory-expansion loop, which is the identity on these
constructors. -/
inductive Val where
  | none
  | vstr (s : Str)
  | vpath (p : Str)
  | vint (n : Int)
  | vlist (xs : List Val)

/-- `is None` (identity comparison with the `None` singleton). -/
def Val.isNone : Val → Bool
  | .none => true
  | _ => false

/-- `xeno.utils.is_iterable`: sequences other than strings/bytes.  Of the
modelled values only lists qualify (`str`, `Path`, `int`, `None` are not
sequences or are excluded explicitly). -/
def Val.isIterable : Val → Bool
  | .vlist _ => true
  | _ => false

-- ------------------------------------------------------------------
-- filesystem and runtime state

/-- Metadata of an existing filesystem entry: its mtime (as an integer
timestamp) and whether the path is a symlink. -/
structure FMeta where
  mtime : Int
  symlink : Bool
deriving DecidableEq

/-- The filesystem: an association list from paths to metadata; a path
exists iff it has an entry.  (Broken symlinks, for which Python's
`exists()` is false but `is_symlink()` true, are not modelled.) -/
abbrev FS := List (Str × FMeta)

/-- Metadata of a path, `none` when the path does not exist. -/
def fsGet : FS → Str → Option FMeta
  | [], _ => Option.none
  | e :: rest, p => if e.1 = p then Option.some e.2 else fsGet rest p

/-- Does the path exist? -/
def fsHas (fs : FS) (p : Str) : Bool := (fsGet fs p).isSome

/-- Is the path a symlink (`Path.is_symlink()`)? -/
def fsIsSymlink (fs : FS) (p : Str) : Bool :=
  match fsGet fs p with
  | Option.some m => m.symlink
  | Option.none => false

/-- Delete a path (`remove_paths` ignores already-missing paths). -/
def fsRemove (fs : FS) (p : Str) : FS := fs.filter (fun e => !(e.1 = p))

/-- Create or overwrite a path with fresh metadata. -/
def fsPut (fs : FS) (p : Str) (m : FMeta) : FS := (p, m) :: fsRemove fs p

/-- Apply a batch of file writes left to right. -/
def fsPutAll (fs : FS) (ws : List (Str × FMeta)) : FS :=
  ws.foldl (fun acc w => fsPut acc w.1 w.2) fs

/-- The mutable runtime state threaded through resolution: the filesystem,
each recipe's `saved_result` (keyed by the recipe's unique id, `Val.none`
when never set, exactly like the `None` initialisation in `__init__`), and
an instrumentation counter of how many times each recipe's `make()` has
run (the "side-effect counter" of the idempotence property). -/
structure St where
  fs : FS
  saved : List (Nat × Val)
  counts : List (Nat × Nat)

/-- Look up an association list. -/
def alistGet {β : Type} : List (Nat × β) → Nat → Option β
  | [], _ => Option.none
  | e :: rest, k => if e.1 = k then Option.some e.2 else alistGet rest k

/-- Update an association list, inserting if absent. -/
def alistPut {β : Type} (l : List (Nat × β)) (k : Nat) (v : β) : List (Nat × β) :=
  (k, v) :: l.filter (fun e => !(e.1 = k))

/-- `recipe.saved_result` (defaults to `None`). -/
def St.savedOf (st : St) (rid : Nat) : Val := (alistGet st.saved rid).getD Val.none

/-- Assign `recipe.saved_result`. -/
def St.setSaved (st : St) (rid : Nat) (v : Val) : St :=
  { st with saved := alistPut st.saved rid v }

/-- How many times this recipe's `make()` has run so far. -/
def St.countOf (st : St) (rid : Nat) : Nat := (alistGet st.counts rid).getD 0

/-- Record one more execution of this recipe's `make()`. -/
def St.bumpCount (st : St) (rid : Nat) : St :=
  { st with counts := alistPut st.counts rid (st.countOf rid + 1) }

-- ------------------------------------------------------------------
-- the recipe tree

/-- The per-recipe configuration fixed at construction time.  `makeRet` is
the (final) value this recipe's `make()` produces and `makeWrites` the
files it creates or touches: `make()` is modelled as an arbitrary
deterministic effect, which is all the verified properties need.
`comps` below stands for the ordered `components()` sequence
(`component_list` followed by the flattened `component_map` values) and
`deps` for the effective `dependencies()` sequence (own `_deps` plus any
inherited from parents). -/
structure RCfg where
  name : Str
  target : Option Str
  staticFiles : List Str
  cleanupFiles : List Str
  memoize : Bool
  sync : Bool
  keep : Bool
  makeRet : Val
  makeWrites : List (Str × FMeta)

/-- A recipe graph node: unique id, configuration, components and
ordering-only dependencies.  The graph is a finite tree, matching the
DAG invariant (cycles would deadlock the source's per-recipe lock). -/
inductive RecipeM where
  | node (rid : Nat) (cfg : RCfg) (comps : List RecipeM) (deps : List RecipeM)

/-- The recipe's unique id. -/
def RecipeM.ridOf : RecipeM → Nat
  | .node rid _ _ _ => rid

/-- The recipe's configuration. -/
def RecipeM.cfgOf : RecipeM → RCfg
  | .node _ cfg _ _ => cfg

/-- The recipe's components, in `components()` order. -/
def RecipeM.compsOf : RecipeM → List RecipeM
  | .node _ _ comps _ => comps

/-- The recipe's ordering-only dependencies, in `dependencies()` order. -/
def RecipeM.depsOf : RecipeM → List RecipeM
  | .node _ _ _ deps => deps

/-- `Recipe.__init__`: the declared target is filtered out of both
`static_files` and `cleanup_files` at construction
(`if target is None or Path(s) != Path(target)`). -/
def mkRecipe (rid : Nat) (name : Str) (target : Option Str)
    (staticFiles cleanupFiles : List Str) (memoize sync keep : Bool)
    (makeRet : Val) (makeWrites : List (Str × FMeta))
    (comps deps : List RecipeM) : RecipeM :=
  .node rid
    { name := name
      target := target
      staticFiles :=
        match target with
        | Option.none => staticFiles
        | Option.some t => staticFiles.filter (fun s => !(s = t))
      cleanupFiles :=
        match target with
        | Option.none => cleanupFiles
        | Option.some t => cleanupFiles.filter (fun s => !(s = t))
      memoize := memoize
      sync := sync
      keep := keep
      makeRet := makeRet
      makeWrites := makeWrites }
    comps deps

/-- `Recipe.Format.sigil` / `Recipe.sigil`: `name:target` when a target is
declared, else the bare name (the source shows the cwd-relative target;
relativisation is not modelled). -/
def sigilOf (r : RecipeM) : Str :=
  match r.cfgOf.target with
  | Option.some t => r.cfgOf.name ++ [(':')] ++ t
  | Option.none => r.cfgOf.name

-- ------------------------------------------------------------------
-- staleness (`age`, `*_age`, `outdated`, `done`)

/-- Python `min()` over a list: `ValueError` on an empty sequence. -/
def pymin : List Td → Except PyErr Td
  | [] => .error (.valueErr (("min() arg is an empty sequence").data))
  | a :: rest => .ok (rest.foldl (fun acc x => if Td.ltb x acc then x else acc) a)

/-- `Recipe.age`: `ref - mtime(target)` when a target is declared and
exists, `timedelta.min` otherwise (both remaining source branches return
`timedelta.min`). -/
def ageR (fs : FS) (ref : Int) (r : RecipeM) : Td :=
  match r.cfgOf.target with
  | Option.some t =>
    match fsGet fs t with
    | Option.some m => .val (ref - m.mtime)
    | Option.none => .nt
  | Option.none => .nt

/-- Ages (`ref - mtime`) of a list of files, failing on a missing one as
`Path.stat()` does. -/
def fileAges (fs : FS) (ref : Int) : List Str → Except PyErr (List Td)
  | [] => .ok []
  | f :: rest =>
    match fsGet fs f with
    | Option.some m =>
      match fileAges fs ref rest with
      | .ok l => .ok (.val (ref - m.mtime) :: l)
      | .error e => .error e
    | Option.none => .error (.fileNotFound f)

/-- `Recipe.static_files_age`: `timedelta.max` with no static files, else
the minimum age of the static files. -/
def staticFilesAge (fs : FS) (ref : Int) (files : List Str) : Except PyErr Td :=
  if files.isEmpty then .ok .xt
  else
    match fileAges fs ref files with
    | .ok l => pymin l
    | .error e => .error e

mutual

/-- `Recipe.inputs_age`: the minimum of the static-files age, the
components age and the dependencies age.  The source's `components_age`
and `dependencies_age` are inlined here so the recursion is structural;
`componentsAge`/`dependenciesAge` below are the named wrappers.  Note the
source bug kept faithfully: `dependencies_age` guards on
`has_components()`, not on the dependency list, so dependencies are
ignored when there are no components, and `min()` raises `ValueError`
when there are components but no dependencies. -/
def inputsAge (fs : FS) (ref : Int) : RecipeM → Except PyErr Td
  | .node _ cfg comps deps =>
    match staticFilesAge fs ref cfg.staticFiles with
    | .error e => .error e
    | .ok s =>
      match (if comps.isEmpty then Except.ok Td.xt else
              match maxAges fs ref comps with
              | .error e => .error e
              | .ok l => pymin l) with
      | .error e => .error e
      | .ok c =>
        match (if comps.isEmpty then Except.ok Td.xt else
                match maxAges fs ref deps with
                | .error e => .error e
                | .ok l => pymin l) with
        | .error e => .error e
        | .ok d => .ok (Td.min2 (Td.min2 s c) d)

/-- `max(r.age(ref), r.inputs_age(ref))` for each recipe, in order. -/
def maxAges (fs : FS) (ref : Int) : List RecipeM → Except PyErr (List Td)
  | [] => .ok []
  | c :: rest =>
    match inputsAge fs ref c with
    | .error e => .error e
    | .ok i =>
      match maxAges fs ref rest with
      | .error e => .error e
      | .ok l => .ok (Td.max2 (ageR fs ref c) i :: l)

end

/-- `Recipe.components_age`: `timedelta.max` with no components, else the
minimum over components of `max(age, inputs_age)`. -/
def componentsAge (fs : FS) (ref : Int) (r : RecipeM) : Except PyErr Td :=
  match r with
  | .node _ _ comps _ =>
    if comps.isEmpty then Except.ok Td.xt
    else
      match maxAges fs ref comps with
      | .error e => .error e
      | .ok l => pymin l

/-- `Recipe.dependencies_age`, bug included: the emptiness guard tests
`has_components()` instead of the dependency list. -/
def dependenciesAge (fs : FS) (ref : Int) (r : RecipeM) : Except PyErr Td :=
  match r with
  | .node _ _ comps deps =>
    if comps.isEmpty then Except.ok Td.xt
    else
      match maxAges fs ref deps with
      | .error e => .error e
      | .ok l => pymin l

/-- `Recipe.outdated(ref)`: false for symlinked targets, else
`age(ref) > inputs_age(ref)`. -/
def outdatedR (fs : FS) (ref : Int) (r : RecipeM) : Except PyErr Bool :=
  match r.cfgOf.target with
  | Option.some t =>
    if fsIsSymlink fs t then .ok false
    else
      match inputsAge fs ref r with
      | .error e => .error e
      | .ok i => .ok (Td.ltb i (ageR fs ref r))
  | Option.none =>
    match inputsAge fs ref r with
    | .error e => .error e
    | .ok i => .ok (Td.ltb i (ageR fs ref r))

/-- `Recipe.done()`: for a target recipe, symlinks are always done, else
the target must exist and not be outdated; for a targetless recipe,
`saved_result is not None`. -/
def doneR (fs : FS) (now : Int) (st : St) (r : RecipeM) : Except PyErr Bool :=
  match r.cfgOf.target with
  | Option.some t =>
    if fsIsSymlink fs t then .ok true
    else if fsHas fs t then
      match outdatedR fs now r with
      | .error e => .error e
      | .ok b => .ok (!b)
    else .ok false
  | Option.none => .ok (!(st.savedOf r.ridOf).isNone)

-- ------------------------------------------------------------------
-- resolution (`__call__`, `_resolve`, `make_dependencies`, `make_components`)

/-- `self.error("Failed to make a dependency.")` message. -/
def depFailMsg : Str := ("Failed to make a dependency.").data

/-- Composite message for concurrently failed dependencies. -/
def depsCompositeMsg : Str := ("Failed to make one or more dependencies.").data

/-- `self.error("Failed to make component.")` message. -/
def compFailMsg : Str := ("Failed to make component.").data

/-- Composite message for concurrently failed components. -/
def compsCompositeMsg : Str := ("Failed to make one or more components.").data

/-- Composite message for failed component cleanups. -/
def cleanCompositeMsg : Str := ("Failed to clean one or more components.").data

/-- Assertion message when a target-bearing recipe's result is not a
string or `Path`. -/
def notStrPathMsg : Str :=
  ("Recipe declared a file target, but the result was not a string or Path object.").data

/-- Assertion message when the result path differs from the target. -/
def pathDiffersMsg (p t : Str) : Str :=
  ("Recipe declared a file target, but the result path differs: ").data
    ++ p ++ (" != ").data ++ t ++ (".").data

/-- The hard-failure message at the end of `_resolve` (the apostrophe is
assembled explicitly). -/
def resolveIncompleteMsg : Str :=
  ("Recipe make() didn").data ++ [Char.ofNat 39] ++ ("t complete successfully.").data

/-- `ValueError` message of `Recipe.result()` before a result exists. -/
def noResultMsg : Str := ("Recipe result has not yet been recorded.").data

/-- `Recipe.result()`: the target when done and target-bearing, else the
saved result, raising `ValueError` when none was recorded. -/
def resultR (now : Int) (st : St) (r : RecipeM) : Except PyErr Val :=
  match doneR st.fs now st r with
  | .error e => .error e
  | .ok d =>
    match r.cfgOf.target, d with
    | Option.some t, true => .ok (.vpath t)
    | _, _ =>
      if (st.savedOf r.ridOf).isNone then .error (.valueErr noResultMsg)
      else .ok (st.savedOf r.ridOf)

/-- `Recipe.components_results` restricted to the component list (the
result value is discarded by `_resolve`, but evaluating it can raise). -/
def componentsResultsR (now : Int) (st : St) : List RecipeM → Except PyErr (List Val)
  | [] => .ok []
  | c :: rest =>
    match resultR now st c with
    | .error e => .error e
    | .ok v =>
      match componentsResultsR now st rest with
      | .error e => .error e
      | .ok vs => .ok (v :: vs)

/-- `except Exception as e: raise BuildError(self, str(e))` — wrap any
escaping exception, tagging it with this recipe's sigil. -/
def wrapBE (sig : Str) : Except PyErr Val × St → Except PyErr Val × St
  | (.error e, st) => (.error (.buildErr sig (PyErr.strOf e)), st)
  | out => out

/-- Turn gathered outcomes into `make_*`'s verdict: collect every
exception (`return_exceptions=True`) and raise one `CompositeError` when
any occurred. -/
def gatherOutcome (msg : Str) (p : List (Except PyErr Val) × St) :
    Except PyErr Unit × St :=
  match collectErrs p.1 with
  | [] => (.ok (), p.2)
  | excs => (.error (.compositeErr excs msg), p.2)

/-- The tail of `_resolve`: record `saved_result`, re-check `done()`, and
on a still-not-done recipe clear `saved_result` and raise the hard
failure. -/
def finishResolve (now : Int) (r : RecipeM) (result : Val) (st : St) :
    Except PyErr Val × St :=
  let st' := st.setSaved r.ridOf result
  match doneR st'.fs now st' r with
  | .error e => (.error e, st')
  | .ok true => (.ok result, st')
  | .ok false => (.error (.runtimeErr resolveIncompleteMsg), st'.setSaved r.ridOf Val.none)

mutual

/-- `Recipe.__call__`: if already `done()`, return the target (when one is
declared) or, for memoized recipes, the saved result; otherwise run
`_resolve`, wrapping any exception in a `BuildError` tagged with this
recipe's sigil.  `res` is `Path.resolve`.  The body inlines `_resolve`
(see `resolveR` for the identical wrapper phrasing). -/
def callR (res : Str → Str) (now : Int) : RecipeM → St → Except PyErr Val × St
  | .node rid cfg comps deps, st =>
    let tryBody :=
      wrapBE (sigilOf (.node rid cfg comps deps))
        (match (if cfg.sync then seqCallsD res now deps st
                else gatherOutcome depsCompositeMsg (gatherCalls res now deps st)) with
         | (.error e, st₁) => (.error e, st₁)
         | (.ok _, st₁) =>
           match ((match (if cfg.sync then seqCallsC res now comps st₁
                          else gatherOutcome compsCompositeMsg
                            (gatherCalls res now comps st₁)) with
                   | (.error e, st') => (.error e, st')
                   | (.ok _, st') =>
                     match componentsResultsR now st' comps with
                     | .error e => (.error e, st')
                     | .ok vs => (.ok vs, st') :
                  Except PyErr (List Val) × St)) with
           | (.error e, st₂) => (.error e, st₂)
           | (.ok _, st₂) =>
               let st₃ :=
                 ({ st₂ with fs := fsPutAll st₂.fs cfg.makeWrites }).bumpCount rid
               match cfg.target with
               | Option.none =>
                 finishResolve now (.node rid cfg comps deps) cfg.makeRet st₃
               | Option.some t =>
                 match cfg.makeRet with
                 | .vstr s =>
                   if res s = res t then
                     finishResolve now (.node rid cfg comps deps) (.vpath s) st₃
                   else (.error (.assertionErr (pathDiffersMsg s t)), st₃)
                 | .vpath p =>
                   if res p = res t then
                     finishResolve now (.node rid cfg comps deps) (.vpath p) st₃
                   else (.error (.assertionErr (pathDiffersMsg p t)), st₃)
                 | _ => (.error (.assertionErr notStrPathMsg), st₃))
    match doneR st.fs now st (.node rid cfg comps deps) with
    | .error e => (.error e, st)
    | .ok true =>
      match cfg.target with
      | Option.some t => (.ok (.vpath t), st)
      | Option.none =>
        if cfg.memoize then (.ok (st.savedOf rid), st) else tryBody
    | .ok false => tryBody

/-- `asyncio.gather(*(c() for c in recipes), return_exceptions=True)`:
every recipe is called, outcomes are returned in order. -/
def gatherCalls (res : Str → Str) (now : Int) :
    List RecipeM → St → List (Except PyErr Val) × St
  | [], st => ([], st)
  | c :: rest, st =>
    match callR res now c st with
    | (out, st') =>
      match gatherCalls res now rest st' with
      | (outs, st'') => (out :: outs, st'')

/-- The `sync=True` branch of `make_dependencies`: sequential, stopping at
the first failure with `RuntimeError("Failed to make a dependency.")`. -/
def seqCallsD (res : Str → Str) (now : Int) :
    List RecipeM → St → Except PyErr Unit × St
  | [], st => (.ok (), st)
  | c :: rest, st =>
    match callR res now c st with
    | (.error _, st') => (.error (.runtimeErr depFailMsg), st')
    | (.ok _, st') => seqCallsD res now rest st'

/-- The `sync=True` branch of `make_components`: sequential, stopping at
the first failure with `RuntimeError("Failed to make component.")`. -/
def seqCallsC (res : Str → Str) (now : Int) :
    List RecipeM → St → Except PyErr Unit × St
  | [], st => (.ok (), st)
  | c :: rest, st =>
    match callR res now c st with
    | (.error _, st') => (.error (.runtimeErr compFailMsg), st')
    | (.ok _, st') => seqCallsC res now rest st'

end

/-- `Recipe.make_dependencies`: resolve every ordering-only dependency,
sequentially when `sync`, else gathered with all failures collected into
a `CompositeError`. -/
def makeDependenciesR (res : Str → Str) (now : Int) (r : RecipeM) (st : St) :
    Except PyErr Unit × St :=
  if r.cfgOf.sync then seqCallsD res now r.depsOf st
  else gatherOutcome depsCompositeMsg (gatherCalls res now r.depsOf st)

/-- `Recipe.make_components`: resolve every component the same way, then
evaluate `components_results()`. -/
def makeComponentsR (res : Str → Str) (now : Int) (r : RecipeM) (st : St) :
    Except PyErr (List Val) × St :=
  match (if r.cfgOf.sync then seqCallsC res now r.compsOf st
         else gatherOutcome compsCompositeMsg (gatherCalls res now r.compsOf st)) with
  | (.error e, st') => (.error e, st')
  | (.ok _, st') =>
    match componentsResultsR now st' r.compsOf with
    | .error e => (.error e, st')
    | .ok vs => (.ok vs, st')

/-- `Recipe._resolve` phrased through the named `make_*` wrappers: resolve
dependencies, then components, run `make()` (modelled by its declared
effect), check a declared target against the produced value, record the
result and re-check `done()`. -/
def resolveR (res : Str → Str) (now : Int) (r : RecipeM) (st : St) :
    Except PyErr Val × St :=
  match makeDependenciesR res now r st with
  | (.error e, st₁) => (.error e, st₁)
  | (.ok _, st₁) =>
    match makeComponentsR res now r st₁ with
    | (.error e, st₂) => (.error e, st₂)
    | (.ok _, st₂) =>
      let st₃ :=
        ({ st₂ with fs := fsPutAll st₂.fs r.cfgOf.makeWrites }).bumpCount r.ridOf
      match r.cfgOf.target with
      | Option.none => finishResolve now r r.cfgOf.makeRet st₃
      | Option.some t =>
        match r.cfgOf.makeRet with
        | .vstr s =>
          if res s = res t then finishResolve now r (.vpath s) st₃
          else (.error (.assertionErr (pathDiffersMsg s t)), st₃)
        | .vpath p =>
          if res p = res t then finishResolve now r (.vpath p) st₃
          else (.error (.assertionErr (pathDiffersMsg p t)), st₃)
        | _ => (.error (.assertionErr notStrPathMsg), st₃)

-- ------------------------------------------------------------------
-- cleaning (`clean`, `clean_components`)

/-- `Recipe.clean`: remove the extra cleanup files first, then — unless
there is no target, the target is absent, or `keep` is set — remove the
target and clear `saved_result`. -/
def cleanR (r : RecipeM) (st : St) : St :=
  let st₁ := { st with fs := r.cfgOf.cleanupFiles.foldl fsRemove st.fs }
  match r.cfgOf.target with
  | Option.none => st₁
  | Option.some t =>
    if (!(fsHas st₁.fs t) && !(fsIsSymlink st₁.fs t)) || r.cfgOf.keep then st₁
    else
      { st₁ with
        fs := fsRemove st₁.fs t
        saved := alistPut st₁.saved r.ridOf Val.none }

/-- `clean()` applied to a list of recipes in order (the sequentialised
gather; `cleanR` is total, so the collected-exception list is empty and
no `CompositeError` arises). -/
def cleanFold : List RecipeM → St → St
  | [], st => st
  | c :: rest, st => cleanFold rest (cleanR c st)

/-- `clean_components(recursive=False)`: clean each component's own
target/cleanup files, without cascading. -/
def cleanComponentsShallow (r : RecipeM) (st : St) : St := cleanFold r.compsOf st

mutual

/-- `clean_components(recursive=True)`: the components plus the
ordering-only dependencies are cleaned, and each is recursively
`clean_components`-ed as well. -/
def cleanComponentsRec : RecipeM → St → St
  | .node _ _ comps deps, st =>
    let st₁ := cleanFold deps (cleanFold comps st)
    cleanCompsFold deps (cleanCompsFold comps st₁)

/-- Recursive cascade over a list of recipes. -/
def cleanCompsFold : List RecipeM → St → St
  | [], st => st
  | c :: rest, st => cleanCompsFold rest (cleanComponentsRec c st)

end

/-- Every node of a recipe tree: the node itself followed by all nodes of
its components and of its ordering-only dependencies. -/
def allNodes : RecipeM → List RecipeM
  | .node rid cfg comps deps =>
    .node rid cfg comps deps :: (allNodesL comps ++ allNodesL deps)
where
  /-- All nodes of each tree in a list. -/
  allNodesL : List RecipeM → List RecipeM
    | [] => []
    | c :: rest => allNodes c ++ allNodesL rest

-- ------------------------------------------------------------------
-- the claim's staleness formula (for comparison with the source's)

mutual

/-- The staleness formula as the specification states it: the minimum of
the static-files age, the minimum over components of
`max(age, inputs_age)`, and the same minimum over ordering-only
dependencies — each minimum defaulting to `timedelta.max` when the
corresponding collection is empty.  This differs from the source's
`inputs_age` only in guarding the dependency minimum by the dependency
list instead of by `has_components()`. -/
def claimInputsAge (fs : FS) (ref : Int) : RecipeM → Except PyErr Td
  | .node _ cfg comps deps =>
    match staticFilesAge fs ref cfg.staticFiles with
    | .error e => .error e
    | .ok s =>
      match (if comps.isEmpty then Except.ok Td.xt else
              match claimMaxAges fs ref comps with
              | .error e => .error e
              | .ok l => pymin l) with
      | .error e => .error e
      | .ok c =>
        match (if deps.isEmpty then Except.ok Td.xt else
                match claimMaxAges fs ref deps with
                | .error e => .error e
                | .ok l => pymin l) with
        | .error e => .error e
        | .ok d => .ok (Td.min2 (Td.min2 s c) d)

/-- `max(age, inputs_age)` per recipe, under the claim's formula. -/
def claimMaxAges (fs : FS) (ref : Int) : List RecipeM → Except PyErr (List Td)
  | [] => .ok []
  | c :: rest =>
    match claimInputsAge fs ref c with
    | .error e => .error e
    | .ok i =>
      match claimMaxAges fs ref rest with
      | .error e => .error e
      | .ok l => .ok (Td.max2 (ageR fs ref c) i :: l)

end

/-- `outdated(ref)` as the claim states it: the recipe's own age exceeds
the claim's input-age minimum. -/
def claimOutdated (fs : FS) (ref : Int) (r : RecipeM) : Except PyErr Bool :=
  match claimInputsAge fs ref r with
  | .error e => .error e
  | .ok i => .ok (Td.ltb i (ageR fs ref r))

-- ------------------------------------------------------------------
-- the Scanner (`Recipe.Scanner`)

/-- Classification of a scanned argument. -/
inductive PType where
  | normal
  | recipe
  | path
deriving DecidableEq

/-- Values as the Scanner sees them: a recipe object (carrying its
computed result and optional declared target), a `Path`, a plain scalar,
or a list.  `recipeV`'s `result` field is the value `result()` returns
once the recipe has been resolved. -/
inductive SVal where
  | recipeV (result : SVal) (target : Option Str)
  | pathV (p : Str)
  | primV (s : Str)
  | listV (xs : List SVal)

/-- `isinstance(x, Recipe)`. -/
def SVal.isRecipe : SVal → Bool
  | .recipeV _ _ => true
  | _ => false

/-- `isinstance(x, Path)`. -/
def SVal.isPath : SVal → Bool
  | .pathV _ => true
  | _ => false

/-- `is_iterable(x)`: of the scanned shapes only lists qualify. -/
def SVal.isIterableS : SVal → Bool
  | .listV _ => true
  | _ => false

/-- `Scanner._scan_one`: recipes classify as RECIPE; a non-empty list of
recipes classifies as RECIPE and a non-empty list of paths as PATH; paths
classify as PATH; everything else (including heterogeneous or empty
lists, which fail the `isinstance(arg, Path)` test) is NORMAL.  The
source copies iterables (`[*arg]`), the identity on the modelled lists,
so only the classification is returned. -/
def scanOne : SVal → PType
  | .recipeV _ _ => .recipe
  | .listV xs =>
    if !xs.isEmpty && xs.all SVal.isRecipe then .recipe
    else if !xs.isEmpty && xs.all SVal.isPath then .path
    else .normal
  | .pathV _ => .path
  | .primV _ => .normal

/-- The `Path` values a PATH-classified argument contributes to
`Scanner._paths` (`extend` for a list, `append` otherwise). -/
def pathsOf : SVal → List Str
  | .pathV p => [p]
  | .listV xs => xs.flatMap fun x => match x with | .pathV p => [p] | _ => []
  | _ => []

/-- `Scanner` state after `scan_params`: the scanned positional and
keyword arguments, the offsets/keys classified RECIPE, and the collected
paths. -/
structure ScannerSt where
  args : List SVal
  kwargs : List (Str × SVal)
  argOffsets : List Nat
  kwargKeys : List Str
  paths : List Str

/-- `Scanner.scan(arg, offset=i)`. -/
def scanAtOffset (st : ScannerSt) (i : Nat) (v : SVal) : ScannerSt :=
  let st₁ :=
    if scanOne v = PType.path then { st with paths := st.paths ++ pathsOf v } else st
  { st₁ with
    args := st₁.args ++ [v]
    argOffsets :=
      if scanOne v = PType.recipe then st₁.argOffsets ++ [i] else st₁.argOffsets }

/-- `Scanner.scan(arg, key=k)` (the source assigns into a dict; inputs
come from a Python `**kwargs` dict, so keys are distinct and the
assignment appends). -/
def scanAtKey (st : ScannerSt) (k : Str) (v : SVal) : ScannerSt :=
  let st₁ :=
    if scanOne v = PType.path then { st with paths := st.paths ++ pathsOf v } else st
  { st₁ with
    kwargs := st₁.kwargs ++ [(k, v)]
    kwargKeys :=
      if scanOne v = PType.recipe then st₁.kwargKeys ++ [k] else st₁.kwargKeys }

/-- `for i, arg in enumerate(args): self.scan(arg, offset=i)`. -/
def scanArgsFrom (i : Nat) : List SVal → ScannerSt → ScannerSt
  | [], st => st
  | a :: rest, st => scanArgsFrom (i + 1) rest (scanAtOffset st i a)

/-- `for k, arg in kwargs.items(): self.scan(arg, key=k)`. -/
def scanKwargsAll : List (Str × SVal) → ScannerSt → ScannerSt
  | [], st => st
  | e :: rest, st => scanKwargsAll rest (scanAtKey st e.1 e.2)

/-- `Scanner.scan_params`: clear, then scan every positional and keyword
argument. -/
def scanParams (args : List SVal) (kwargs : List (Str × SVal)) : ScannerSt :=
  scanKwargsAll kwargs (scanArgsFrom 0 args ⟨[], [], [], [], []⟩)

/-- The three pass modes. -/
inductive PassMode where
  | normal
  | results
  | targets
deriving DecidableEq

/-- `r.result()` for a resolved recipe (the identity on anything else;
the source can only reach this on RECIPE-classified entries). -/
def resultOfS : SVal → SVal
  | .recipeV r _ => r
  | v => v

/-- `r.target_or(r)`: the target path, or the recipe object itself when
no target is declared. -/
def targetOrOf : SVal → SVal
  | .recipeV _ (Option.some t) => .pathV t
  | .recipeV r Option.none => .recipeV r Option.none
  | v => v

/-- The per-entry replacement: element-wise over an iterable entry
(a homogeneous recipe list), else applied to the single recipe. -/
def applyMode (f : SVal → SVal) (v : SVal) : SVal :=
  match v with
  | .listV xs => .listV (xs.map f)
  | _ => f v

/-- `results[offset] = ...` at one recorded offset (out-of-range offsets
cannot be produced by `scan_params`). -/
def setAtOffset (f : SVal → SVal) (l : List SVal) (o : Nat) : List SVal :=
  match l.get? o with
  | Option.some v => l.set o (applyMode f v)
  | Option.none => l

/-- `Scanner.args(pass_mode)`: the scanned args with each RECIPE offset
replaced by its result (RESULTS) or target (TARGETS). -/
def argsMode (mode : PassMode) (st : ScannerSt) : List SVal :=
  match mode with
  | .normal => st.args
  | .results => st.argOffsets.foldl (setAtOffset resultOfS) st.args
  | .targets => st.argOffsets.foldl (setAtOffset targetOrOf) st.args

/-- `results[key] = ...` for one recorded key. -/
def setAtKey (f : SVal → SVal) (l : List (Str × SVal)) (k : Str) :
    List (Str × SVal) :=
  l.map fun e => if e.1 = k then (e.1, applyMode f e.2) else e

/-- `Scanner.kwargs(pass_mode)`. -/
def kwargsMode (mode : PassMode) (st : ScannerSt) : List (Str × SVal) :=
  match mode with
  | .normal => st.kwargs
  | .results => st.kwargKeys.foldl (setAtKey resultOfS) st.kwargs
  | .targets => st.kwargKeys.foldl (setAtKey targetOrOf) st.kwargs

/-- Association-list lookup for scanned kwargs. -/
def kwGet : List (Str × SVal) → Str → Option SVal
  | [], _ => Option.none
  | e :: rest, k => if e.1 = k then Option.some e.2 else kwGet rest k

/-- The offsets `scan_params` records for RECIPE-classified positional
arguments, starting at position `i`. -/
def recipeOffsets : Nat → List SVal → List Nat
  | _, [] => []
  | i, a :: rest =>
    (if scanOne a = PType.recipe then [i] else []) ++ recipeOffsets (i + 1) rest

/-- The keys `scan_params` records for RECIPE-classified keyword
arguments. -/
def recipeKeys : List (Str × SVal) → List Str
  | [] => []
  | e :: rest =>
    (if scanOne e.2 = PType.recipe then [e.1] else []) ++ recipeKeys rest

-- ------------------------------------------------------------------
-- the Shell (`Shell.interpolate`, `Shell.run`)

/-- String-keyed association lookup (Python dict access). -/
def slookup {β : Type} : List (Str × β) → Str → Option β
  | [], _ => Option.none
  | e :: rest, k => if e.1 = k then Option.some e.2 else slookup rest k

/-- A parsed `str.format` template: literal pieces and `{name}` fields.
Both the string and the argument-list forms of a command reduce to named
substitution over such a template. -/
inductive Tok where
  | lit (s : Str)
  | var (k : Str)

/-- Per-call shell parameters after `digest_params` flattening: named
strings (the stringification of arbitrary Python values is outside the
model, so values are carried post-digest). -/
abbrev Params := List (Str × Str)

/-- The display wrappers: named functions plus an optional catch-all
under the `*` key. -/
abbrev Wrappers := List (Str × (Str → Str))

/-- One wrapped parameter value: the wrapper registered under the name,
else the `*` wrapper, else the value unchanged. -/
def applyWrapper (w : Wrappers) (k v : Str) : Str :=
  match slookup w k with
  | Option.some f => f v
  | Option.none =>
    match slookup w (("*").data) with
    | Option.some f => f v
    | Option.none => v

/-- The `digested_params` dict comprehension of `Shell.interpolate`. -/
def wrapParams (w : Wrappers) (ps : Params) : Params :=
  ps.map fun e => (e.1, applyWrapper w e.1 e.2)

/-- The displayed-value replacement for redacted parameter names. -/
def redactedText : Str := ("<redacted>").data

/-- The `redacted_params` dict comprehension: every parameter named in
the redaction set renders as `<redacted>` regardless of its value. -/
def redactParams (redacted : List Str) (ps : Params) : Params :=
  ps.map fun e => (e.1, if e.1 ∈ redacted then redactedText else e.2)

/-- `cmd.format(**self._env, **redacted_params)`: named substitution where
the per-call parameters shadow the environment; an unbound name raises
`KeyError`. -/
def substTemplate (env ps : Params) : List Tok → Except PyErr Str
  | [] => .ok []
  | .lit s :: rest =>
    match substTemplate env ps rest with
    | .error e => .error e
    | .ok tail => .ok (s ++ tail)
  | .var k :: rest =>
    match slookup ps k with
    | Option.some v =>
      match substTemplate env ps rest with
      | .error e => .error e
      | .ok tail => .ok (v ++ tail)
    | Option.none =>
      match slookup env k with
      | Option.some v =>
        match substTemplate env ps rest with
        | .error e => .error e
        | .ok tail => .ok (v ++ tail)
      | Option.none => .error (.keyErr k)

/-- `Shell.interpolate`: wrap each digested parameter, redact the named
ones for display, and substitute into the command template. -/
def interpolate (cmd : List Tok) (env : Params) (params : Params)
    (wrappers : Wrappers) (redacted : List Str) : Except PyErr Str :=
  substTemplate env (redactParams redacted (wrapParams wrappers params)) cmd

/-- The command text `Shell.run` executes:
`cmd = self.interpolate(cmd, params)` with the default (empty) wrappers
and redaction set — the real parameter values, unredacted. -/
def runCommandText (cmd : List Tok) (env : Params) (params : Params) :
    Except PyErr Str :=
  interpolate cmd env params [] []

-- ------------------------------------------------------------------
-- the query mode

/-- Modelled from the spec: the Engine's query mode (`-Q`, `--query`) is
absent from the sources (only `test.py` exercises `engine.build("-Q",
names)`); per the spec it takes a comma-separated list of requested
target names and returns the count of names that are not resolvable
targets in the registry, `0` exactly when every listed name exists.  The
registry is the set of resolvable target names. -/
def queryMode (registry : List Str) (arg : Str) : Nat :=
  (pysplit arg (',')).foldl
    (fun n name => if registry.contains name then n else n + 1) 0

-- ------------------------------------------------------------------
-- concrete fixtures for counterexamples, failing inputs and witnesses

/-- The empty runtime state. -/
def emptySt : St := ⟨[], [], []⟩

/-- A targetless, non-memoized leaf recipe whose `make()` returns `7`. -/
def cxDoneRecipe : RecipeM :=
  .node 0 ⟨("done").data, Option.none, [], [], false, false, false, .vint 7, []⟩ [] []

/-- A state in which `cxDoneRecipe` already has a saved result (`3`), so
it is `done()`. -/
def cxDoneSt : St := ⟨[], [(0, .vint 3)], []⟩

/-- The target path used by the file-target fixtures. -/
def wTgt : Str := ("out").data

/-- A leaf file-target recipe whose `make()` returns its declared target
and creates it (mtime 3). -/
def w1Recipe : RecipeM :=
  .node 1 ⟨("w1").data, Option.some wTgt, [], [], false, false, false,
    .vstr wTgt, [(wTgt, ⟨3, false⟩)]⟩ [] []

/-- The state after `w1Recipe`'s first successful call at time 5. -/
def w1St : St := ⟨[(wTgt, ⟨3, false⟩)], [(1, .vpath wTgt)], [(1, 1)]⟩

/-- A memoized targetless leaf recipe. -/
def wMemoRecipe : RecipeM :=
  .node 2 ⟨("memo").data, Option.none, [], [], true, false, false, .vint 0, []⟩ [] []

/-- A state in which `wMemoRecipe` has a saved result. -/
def wMemoSt : St := ⟨[], [(2, .vint 42)], []⟩

/-- A file-target recipe whose `make()` produces a non-path value. -/
def wBadRecipe : RecipeM :=
  .node 3 ⟨("bad").data, Option.some wTgt, [], [], false, false, false,
    .vint 0, []⟩ [] []

/-- A targetless leaf recipe whose `make()` returns `None` (id 4). -/
def c9Recipe : RecipeM :=
  .node 4 ⟨("c9").data, Option.none, [], [], false, false, false, .none, []⟩ [] []

/-- First failing child for the aggregation fixture: its `make()` returns
`None`, which is a hard failure for a targetless recipe. -/
def c2Child1 : RecipeM :=
  .node 5 ⟨("alpha").data, Option.none, [], [], false, false, false, .none, []⟩ [] []

/-- Second failing child, with a distinct name. -/
def c2Child2 : RecipeM :=
  .node 6 ⟨("beta").data, Option.none, [], [], false, false, false, .none, []⟩ [] []

/-- A parent with two failing components and an interleaved healthy one. -/
def c2Ok : RecipeM :=
  .node 7 ⟨("gamma").data, Option.none, [], [], false, false, false, .vint 1, []⟩ [] []

/-- The aggregation fixture: `sync=False` parent of three siblings, two of
which fail with distinct errors. -/
def c2Parent : RecipeM :=
  .node 8 ⟨("parent").data, Option.none, [], [], false, false, false, .vint 9, []⟩
    [c2Child1, c2Ok, c2Child2] []

/-- The `BuildError` either failing child raises. -/
def c2Err (who : Str) : PyErr := .buildErr who resolveIncompleteMsg

/-- The staleness failing input: an ordering-only dependency with its own
static input file. -/
def c3Dep : RecipeM :=
  .node 9 ⟨("dep").data, Option.some (("depout").data), [(("src").data)], [],
    false, false, false, .none, []⟩ [] []

/-- A file-target recipe with one ordering-only dependency and no
components. -/
def c3Recipe : RecipeM :=
  .node 10 ⟨("main").data, Option.some (("mainout").data), [], [],
    false, false, false, .none, []⟩ [] [c3Dep]

/-- Filesystem for the staleness failing input: the recipe's target is old
(mtime 0) while the dependency's target (mtime 18) and the dependency's
static input (mtime 15) are newer. -/
def c3Fs : FS :=
  [((("mainout").data), ⟨0, false⟩), ((("depout").data), ⟨18, false⟩),
   ((("src").data), ⟨15, false⟩)]

/-- A file-target recipe with one component and no dependencies, on which
the source's `dependencies_age` computes `min()` of an empty sequence. -/
def c3CompRecipe : RecipeM :=
  .node 11 ⟨("withcomp").data, Option.some (("mainout").data), [], [],
    false, false, false, .none, []⟩ [c3Dep] []

/-- The keep fixture: a file-target component with `keep=True` and one
cleanup file. -/
def c5Keep : RecipeM :=
  .node 12 ⟨("keepme").data, Option.some (("kept").data), [], [(("scratch").data)],
    false, false, true, .none, []⟩ [] []

/-- A non-keep sibling with its own target. -/
def c5Sib : RecipeM :=
  .node 13 ⟨("sib").data, Option.some (("sibout").data), [], [],
    false, false, false, .none, []⟩ [] []

/-- A parent recipe holding both components and an ordering-only
dependency. -/
def c5Parent : RecipeM :=
  .node 14 ⟨("top").data, Option.some (("topout").data), [], [],
    false, false, false, .none, []⟩ [c5Keep, c5Sib] [c5Sib]

/-- Filesystem in which every target of the keep fixture exists. -/
def c5Fs : FS :=
  [((("kept").data), ⟨1, false⟩), ((("scratch").data), ⟨1, false⟩),
   ((("sibout").data), ⟨1, false⟩), ((("topout").data), ⟨1, false⟩)]

/-- Runtime state for the keep fixture. -/
def c5St : St := ⟨c5Fs, [], []⟩

/-- A produced value that fails `_resolve`'s target guard: not a string or
`Path`, or a path resolving differently from the declared target. -/
def valMismatch (res : Str → Str) (t : Str) : Val → Prop
  | .vstr s => ¬res s = res t
  | .vpath p => ¬res p = res t
  | _ => True

/-- A node through which a path survives cleaning: the path is not among
the node's cleanup files, and if it is the node's target the node is
`keep`. -/
@[reducible]
def keepSurvives (t : Str) (n : RecipeM) : Prop :=
  t ∉ n.cfgOf.cleanupFiles ∧ (n.cfgOf.target = Option.some t → n.cfgOf.keep = true)

/-- Shift a timedelta by `δ`: the effect on every age of moving the
reference time by `δ` while the filesystem stays fixed. -/
def tdShift (δ : Int) : Td → Td
  | .nt => .nt
  | .val n => .val (n + δ)
  | .xt => .xt

/-- Positional arguments for the Scanner fixture: a plain scalar, a
single recipe with a target, a homogeneous recipe list, and a path. -/
def c6Args : List SVal :=
  [.primV (("x").data),
   .recipeV (.primV (("res1").data)) (Option.some (("t1").data)),
   .listV [.recipeV (.primV (("r2").data)) Option.none,
           .recipeV (.primV (("r3").data)) (Option.some (("t3").data))],
   .pathV (("p").data)]

/-- Keyword arguments for the Scanner fixture: one targetless recipe and
one plain value. -/
def c6Kwargs : List (Str × SVal) :=
  [((("k").data), .recipeV (.primV (("rk").data)) Option.none),
   ((("n").data), .primV (("plain").data))]

/-- Shell fixture: the command template `echo {pw}`. -/
def c7Cmd : List Tok := [.lit (("echo ").data), .var (("pw").data)]

/-- Shell fixture: `pw` is redacted. -/
def c7R : List Str := [("pw").data]

/-- Shell fixture: first secret parameter map. -/
def c7P1 : Params := [((("pw").data), ("secretA").data)]

/-- Shell fixture: second parameter map, differing only on the redacted
name. -/
def c7P2 : Params := [((("pw").data), ("secretB").data)]

-- ------------------------------------------------------------------
-- helper lemmas: text and message composition

theorem foldl_join_eq (sep : Str) (l : List Str) :
    ∀ acc : Str, l.foldl (fun acc t => acc ++ sep ++ t) acc =
      acc ++ l.flatMap (fun t => sep ++ t) := by
  induction l with
  | nil => intro acc; simp
  | cons t ts ih =>
    intro acc
    rw [List.foldl_cons, ih, List.flatMap_cons]
    simp [List.append_assoc]

theorem mem_infix_flatMap (sep : Str) {a : Str} {l : List Str} (h : a ∈ l) :
    a <:+: l.flatMap (fun t => sep ++ t) := by
  induction l with
  | nil => cases h
  | cons t ts ih =>
    rcases List.mem_cons.mp h with rfl | h'
    · exact ((List.suffix_append sep a).isInfix).trans
        ⟨[], ts.flatMap (fun t => sep ++ t), by simp⟩
    · exact (ih h').trans ⟨sep ++ t, [], by simp⟩

theorem mem_infix_pyJoin (sep : Str) {a : Str} {l : List Str} (h : a ∈ l) :
    a <:+: pyJoin sep l := by
  cases l with
  | nil => cases h
  | cons s rest =>
    rw [pyJoin, foldl_join_eq]
    rcases List.mem_cons.mp h with rfl | h'
    · exact ⟨[], rest.flatMap (fun t => sep ++ t), by simp⟩
    · exact (mem_infix_flatMap sep h').trans ⟨s, [], by simp⟩

theorem pysplit_no_sep {c : Char} : ∀ {s : Str}, c ∉ s → pysplit s c = [s] := by
  intro s
  induction s with
  | nil => intro _; rfl
  | cons x xs ih =>
    intro h
    have hx : ¬x = c := fun hxc => h (hxc ▸ List.mem_cons_self x xs)
    have hxs : c ∉ xs := fun hm => h (List.mem_cons_of_mem x hm)
    rw [pysplit, ih hxs]
    simp [hx]

theorem strPairs_mem {e : PyErr} : ∀ {excs : List PyErr}, e ∈ excs →
    (e.qualname, e.strOf) ∈ PyErr.strPairs excs := by
  intro excs
  induction excs with
  | nil => intro h; cases h
  | cons x xs ih =>
    intro h
    rw [PyErr.strPairs]
    rcases List.mem_cons.mp h with rfl | h'
    · exact List.mem_cons_self _ _
    · exact List.mem_cons_of_mem _ (ih h')

theorem composeMessage_contains {msg : Str} {pairs : List (Str × Str)}
    {q m : Str} (hmem : (q, m) ∈ pairs) (hnl : nlChar ∉ m) :
    m <:+: composeMessage msg pairs := by
  have hblock :
      (indent4 ++ (q ++ (": ").data ++ m)) ∈
        (msg :: pairs.flatMap fun p =>
          match pysplit p.2 nlChar with
          | [] => []
          | l0 :: rest =>
            (indent4 ++ (p.1 ++ (": ").data ++ l0)) :: rest.map (fun l => indent4 ++ l)) := by
    refine List.mem_cons_of_mem _ (List.mem_flatMap.mpr ⟨(q, m), hmem, ?_⟩)
    rw [show pysplit (q, m).2 nlChar = [m] from pysplit_no_sep hnl]
    simp
  refine List.IsInfix.trans ?_ (mem_infix_pyJoin [nlChar] hblock)
  exact ⟨indent4 ++ (q ++ (": ").data), [], by simp⟩

theorem composite_strOf_contains {excs : List PyErr} {msg : Str} {e : PyErr}
    (hmem : e ∈ excs) (hnl : nlChar ∉ e.strOf) :
    e.strOf <:+: (PyErr.compositeErr excs msg).strOf := by
  rw [PyErr.strOf]
  exact composeMessage_contains (strPairs_mem hmem) hnl

theorem buildErr_strOf_contains {sig inner m : Str} (h : m <:+: inner) :
    m <:+: (PyErr.buildErr sig inner).strOf := by
  rw [PyErr.strOf]
  exact h.trans ⟨(("[").data ++ sig ++ ("] ").data), [], by simp⟩

-- ------------------------------------------------------------------
-- helper lemmas: staleness is invariant under shifting the reference time

theorem ltb_tdShift (δ : Int) (a b : Td) :
    Td.ltb (tdShift δ a) (tdShift δ b) = Td.ltb a b := by
  cases a <;> cases b <;> simp [tdShift, Td.ltb, Int.add_lt_add_iff_right]

theorem min2_tdShift (δ : Int) (a b : Td) :
    Td.min2 (tdShift δ a) (tdShift δ b) = tdShift δ (Td.min2 a b) := by
  simp only [Td.min2, ltb_tdShift, apply_ite (tdShift δ)]

theorem max2_tdShift (δ : Int) (a b : Td) :
    Td.max2 (tdShift δ a) (tdShift δ b) = tdShift δ (Td.max2 a b) := by
  simp only [Td.max2, ltb_tdShift, apply_ite (tdShift δ)]

theorem foldl_min_tdShift (δ : Int) (l : List Td) :
    ∀ acc, (l.map (tdShift δ)).foldl (fun acc x => if Td.ltb x acc then x else acc)
        (tdShift δ acc) =
      tdShift δ (l.foldl (fun acc x => if Td.ltb x acc then x else acc) acc) := by
  induction l with
  | nil => intro acc; rfl
  | cons x xs ih =>
    intro acc
    simp only [List.map_cons, List.foldl_cons, ltb_tdShift, apply_ite (tdShift δ)]
    rw [← apply_ite (tdShift δ), ih]

theorem pymin_tdShift (δ : Int) (l : List Td) :
    pymin (l.map (tdShift δ)) = (pymin l).map (tdShift δ) := by
  cases l with
  | nil => rfl
  | cons a rest =>
    simp only [pymin, List.map_cons, Except.map]
    rw [foldl_min_tdShift]

theorem ageR_tdShift (fs : FS) (δ ref : Int) (r : RecipeM) :
    ageR fs (ref + δ) r = tdShift δ (ageR fs ref r) := by
  rw [ageR, ageR]
  rcases r.cfgOf.target with _ | t
  · rfl
  · dsimp only
    rcases fsGet fs t with _ | m
    · rfl
    · dsimp only [tdShift]
      rw [show ref + δ - m.mtime = ref - m.mtime + δ by omega]

theorem fileAges_tdShift (fs : FS) (δ : Int) (ref : Int) :
    ∀ files, fileAges fs (ref + δ) files =
      (fileAges fs ref files).map (List.map (tdShift δ)) := by
  intro files
  induction files with
  | nil => rfl
  | cons f rest ih =>
    rw [fileAges, fileAges]
    rcases fsGet fs f with _ | m
    · rfl
    · dsimp only
      rw [ih]
      rcases fileAges fs ref rest with e | l
      · rfl
      · dsimp only [Except.map, List.map_cons, tdShift]
        rw [show ref + δ - m.mtime = ref - m.mtime + δ by omega]

theorem staticFilesAge_tdShift (fs : FS) (δ ref : Int) (files : List Str) :
    staticFilesAge fs (ref + δ) files = (staticFilesAge fs ref files).map (tdShift δ) := by
  rw [staticFilesAge, staticFilesAge, fileAges_tdShift]
  by_cases h : files.isEmpty
  · simp [h, Except.map, tdShift]
  · simp only [h, if_false]
    rcases fileAges fs ref files with e | l
    · rfl
    · exact pymin_tdShift δ l

mutual

theorem inputsAge_tdShift (fs : FS) (δ : Int) :
    ∀ (r : RecipeM) (ref : Int),
      inputsAge fs (ref + δ) r = (inputsAge fs ref r).map (tdShift δ)
  | .node rid cfg comps deps, ref => by
    rw [inputsAge, inputsAge, staticFilesAge_tdShift]
    rcases staticFilesAge fs ref cfg.staticFiles with e | s
    · rfl
    · dsimp only [Except.map]
      by_cases hc : comps.isEmpty
      · simp only [if_pos hc]
        rw [← min2_tdShift δ (Td.min2 s Td.xt) Td.xt, ← min2_tdShift δ s Td.xt]
        rfl
      · simp only [if_neg hc]
        rw [maxAges_tdShift fs δ comps ref]
        rcases maxAges fs ref comps with e | lc
        · rfl
        · dsimp only [Except.map]
          rw [pymin_tdShift]
          rcases hpc : pymin lc with e | c
          · rfl
          · dsimp only [Except.map]
            rw [maxAges_tdShift fs δ deps ref]
            rcases maxAges fs ref deps with e | ld
            · rfl
            · dsimp only [Except.map]
              rw [pymin_tdShift]
              rcases hpd : pymin ld with e | d
              · rfl
              · dsimp only [Except.map]
                rw [← min2_tdShift δ (Td.min2 s c) d, ← min2_tdShift δ s c]

theorem maxAges_tdShift (fs : FS) (δ : Int) :
    ∀ (l : List RecipeM) (ref : Int),
      maxAges fs (ref + δ) l = (maxAges fs ref l).map (List.map (tdShift δ))
  | [], _ => rfl
  | c :: rest, ref => by
    rw [maxAges, maxAges, inputsAge_tdShift fs δ c ref]
    rcases inputsAge fs ref c with e | i
    · rfl
    · dsimp only [Except.map]
      rw [maxAges_tdShift fs δ rest ref]
      rcases maxAges fs ref rest with e | l'
      · rfl
      · dsimp only [Except.map, List.map_cons]
        rw [ageR_tdShift, max2_tdShift]

end

theorem outdatedR_ref_irrel (fs : FS) (r : RecipeM) (ref ref' : Int) :
    outdatedR fs ref' r = outdatedR fs ref r := by
  have key : ∀ δ base, outdatedR fs (base + δ) r = outdatedR fs base r := by
    intro δ base
    rw [outdatedR, outdatedR]
    rcases r.cfgOf.target with _ | t
    · rw [inputsAge_tdShift fs δ r base]
      rcases inputsAge fs base r with e | i
      · rfl
      · simp only [Except.map, ageR_tdShift, ltb_tdShift]
    · by_cases hsym : fsIsSymlink fs t
      · simp [hsym]
      · simp only [hsym, if_false]
        rw [inputsAge_tdShift fs δ r base]
        rcases inputsAge fs base r with e | i
        · rfl
        · simp only [Except.map, ageR_tdShift, ltb_tdShift]
  have := key (ref' - ref) ref
  rwa [show ref + (ref' - ref) = ref' by omega] at this

theorem doneR_now_irrel (fs : FS) (st : St) (r : RecipeM) (now now' : Int) :
    doneR fs now' st r = doneR fs now st r := by
  rw [doneR, doneR]
  rcases r.cfgOf.target with _ | t
  · rfl
  · rw [outdatedR_ref_irrel fs r now now']

-- ------------------------------------------------------------------
-- helper lemmas: unfolding and inverting `__call__`

theorem callR_node (res : Str → Str) (now : Int) (rid : Nat) (cfg : RCfg)
    (comps deps : List RecipeM) (st : St) :
    callR res now (.node rid cfg comps deps) st =
      (match doneR st.fs now st (.node rid cfg comps deps) with
       | .error e => (.error e, st)
       | .ok true =>
         match cfg.target with
         | Option.some t => (.ok (.vpath t), st)
         | Option.none =>
           if cfg.memoize then (.ok (st.savedOf rid), st)
           else wrapBE (sigilOf (.node rid cfg comps deps))
             (resolveR res now (.node rid cfg comps deps) st)
       | .ok false =>
         wrapBE (sigilOf (.node rid cfg comps deps))
           (resolveR res now (.node rid cfg comps deps) st)) := by
  rw [callR]
  simp only [resolveR, makeDependenciesR, makeComponentsR, RecipeM.cfgOf, RecipeM.depsOf,
    RecipeM.compsOf, RecipeM.ridOf]

theorem wrapBE_ok {sig : Str} {p : Except PyErr Val × St} {v : Val} {st' : St}
    (h : wrapBE sig p = (.ok v, st')) : p = (.ok v, st') := by
  rcases p with ⟨o, s⟩
  cases o with
  | error e => simp [wrapBE] at h
  | ok w => simpa [wrapBE] using h

theorem wrapBE_error (sig : Str) (e : PyErr) (st : St) :
    wrapBE sig (.error e, st) = (.error (.buildErr sig (PyErr.strOf e)), st) := rfl

theorem savedOf_setSaved_self (st : St) (rid : Nat) (v : Val) :
    (st.setSaved rid v).savedOf rid = v := by
  simp [St.setSaved, St.savedOf, alistPut, alistGet]

theorem doneR_target_st_irrel {r : RecipeM} {t : Str}
    (h : r.cfgOf.target = Option.some t) (fs : FS) (now : Int) (st st' : St) :
    doneR fs now st r = doneR fs now st' r := by
  rw [doneR, doneR, h]

theorem finishResolve_ok {now : Int} {r : RecipeM} {result v : Val} {st st' : St}
    (h : finishResolve now r result st = (.ok v, st')) :
    v = result ∧ st' = st.setSaved r.ridOf result ∧
      doneR st'.fs now st' r = .ok true := by
  rw [finishResolve] at h
  rcases hd : doneR (st.setSaved r.ridOf result).fs now (st.setSaved r.ridOf result) r
    with e | b
  · rw [hd] at h; simp at h
  · rw [hd] at h
    cases b with
    | true =>
      simp only [Prod.mk.injEq] at h
      obtain ⟨hv, hst⟩ := h
      injection hv with hrv
      subst hrv
      subst hst
      exact ⟨rfl, rfl, hd⟩
    | false => simp at h

theorem call_done_target {res : Str → Str} {now : Int} {r : RecipeM} {st : St} {t : Str}
    (htgt : r.cfgOf.target = Option.some t)
    (hdone : doneR st.fs now st r = .ok true) :
    callR res now r st = (.ok (.vpath t), st) := by
  obtain ⟨rid, cfg, comps, deps⟩ := r
  simp only [RecipeM.cfgOf] at htgt
  rw [callR_node, hdone]
  dsimp only
  rw [htgt]

theorem call_done_memoize {res : Str → Str} {now : Int} {r : RecipeM} {st : St}
    (htgt : r.cfgOf.target = Option.none) (hmemo : r.cfgOf.memoize = true)
    (hdone : doneR st.fs now st r = .ok true) :
    callR res now r st = (.ok (st.savedOf r.ridOf), st) := by
  obtain ⟨rid, cfg, comps, deps⟩ := r
  simp only [RecipeM.cfgOf, RecipeM.ridOf] at htgt hmemo ⊢
  rw [callR_node, hdone]
  dsimp only
  rw [htgt]
  dsimp only
  rw [if_pos hmemo]

theorem call_target_success {res : Str → Str} {now : Int} {r : RecipeM}
    {st st' : St} {v : Val} {t : Str}
    (htgt : r.cfgOf.target = Option.some t)
    (hcall : callR res now r st = (.ok v, st')) :
    (∃ p, v = .vpath p ∧ res p = res t) ∧ doneR st'.fs now st' r = .ok true := by
  obtain ⟨rid, cfg, comps, deps⟩ := r
  simp only [RecipeM.cfgOf] at htgt
  rw [callR_node] at hcall
  rcases hdone : doneR st.fs now st (.node rid cfg comps deps) with e | b
  · rw [hdone] at hcall
    simp at hcall
  · rw [hdone] at hcall
    cases b with
    | true =>
      dsimp only at hcall
      rw [htgt] at hcall
      dsimp only at hcall
      simp only [Prod.mk.injEq] at hcall
      obtain ⟨h1, h2⟩ := hcall
      injection h1 with h1v
      subst h2
      exact ⟨⟨t, h1v.symm, rfl⟩, hdone⟩
    | false =>
      dsimp only at hcall
      have hres := wrapBE_ok hcall
      rw [resolveR] at hres
      rcases h1 : makeDependenciesR res now (.node rid cfg comps deps) st with ⟨o1, st₁⟩
      rw [h1] at hres
      cases o1 with
      | error e => simp at hres
      | ok u =>
        dsimp only at hres
        rcases h2 : makeComponentsR res now (.node rid cfg comps deps) st₁ with ⟨o2, st₂⟩
        rw [h2] at hres
        cases o2 with
        | error e => simp at hres
        | ok vs =>
          dsimp only [RecipeM.cfgOf, RecipeM.ridOf] at hres
          rw [htgt] at hres
          dsimp only at hres
          rcases hmk : cfg.makeRet with _ | s | p | n | xs
          · rw [hmk] at hres; simp at hres
          · rw [hmk] at hres
            dsimp only at hres
            by_cases hrt : res s = res t
            · rw [if_pos hrt] at hres
              obtain ⟨hv, _, hdn⟩ := finishResolve_ok hres
              exact ⟨⟨s, hv, hrt⟩, hdn⟩
            · rw [if_neg hrt] at hres; simp at hres
          · rw [hmk] at hres
            dsimp only at hres
            by_cases hrt : res p = res t
            · rw [if_pos hrt] at hres
              obtain ⟨hv, _, hdn⟩ := finishResolve_ok hres
              exact ⟨⟨p, hv, hrt⟩, hdn⟩
            · rw [if_neg hrt] at hres; simp at hres
          · rw [hmk] at hres; simp at hres
          · rw [hmk] at hres; simp at hres

-- ------------------------------------------------------------------
-- C1: done recipes, caching and idempotence

/-- Counterexample to C1 as stated: a recipe that is already `done()` (it
has a saved result, no file target, and `memoize=False`) does not return
the cached value — `__call__` falls through, `make()` runs again (the
execution counter goes from 0 to 1) and the fresh value `7`, not the
cached `3`, is returned. -/
theorem done_recipe_reexecutes_make :
    doneR cxDoneSt.fs 0 cxDoneSt cxDoneRecipe = .ok true
  ∧ cxDoneSt.savedOf 0 = .vint 3
  ∧ cxDoneSt.countOf 0 = 0
  ∧ (callR id 0 cxDoneRecipe cxDoneSt).1 = .ok (.vint 7)
  ∧ (callR id 0 cxDoneRecipe cxDoneSt).2.countOf 0 = 1 :=
  ⟨rfl, rfl, rfl, rfl, rfl⟩

/-- C1 (amended): a recipe that is already `done()` returns its cached
target or value immediately — without executing `make()` — when it
declares a file target or is memoized (a done recipe with neither
re-executes, see the counterexample).  In particular, for file-target
recipes, after one successful call every later call returns the declared
target path unchanged, with no state change and no second `make()`
execution, and the first call's value already resolves to that target. -/
theorem call_returns_cached_when_done :
    (∀ (res : Str → Str) (now : Int) (r : RecipeM) (st : St) (t : Str),
      r.cfgOf.target = Option.some t →
      doneR st.fs now st r = .ok true →
      callR res now r st = (.ok (.vpath t), st))
  ∧ (∀ (res : Str → Str) (now : Int) (r : RecipeM) (st : St),
      r.cfgOf.target = Option.none →
      r.cfgOf.memoize = true →
      doneR st.fs now st r = .ok true →
      callR res now r st = (.ok (st.savedOf r.ridOf), st))
  ∧ (∀ (res : Str → Str) (now now₂ : Int) (r : RecipeM) (st st' : St) (v : Val) (t : Str),
      r.cfgOf.target = Option.some t →
      callR res now r st = (.ok v, st') →
      (∃ p, v = .vpath p ∧ res p = res t)
      ∧ callR res now₂ r st' = (.ok (.vpath t), st')) := by
  refine ⟨fun res now r st t htgt hdone => call_done_target htgt hdone,
          fun res now r st htgt hmemo hdone => call_done_memoize htgt hmemo hdone,
          fun res now now₂ r st st' v t htgt hcall => ?_⟩
  obtain ⟨hv, hdone'⟩ := call_target_success htgt hcall
  refine ⟨hv, ?_⟩
  have hdone₂ : doneR st'.fs now₂ st' r = .ok true := by
    rw [doneR_now_irrel st'.fs st' r now now₂]
    exact hdone'
  exact call_done_target htgt hdone₂

/-- Witness for C1 (amended): the concrete file-target recipe is built
once, then a later call at another time returns the same target with no
state change; the concrete memoized recipe returns its saved value. -/
theorem call_returns_cached_when_done_witness :
    callR id 5 w1Recipe emptySt = (.ok (.vpath wTgt), w1St)
  ∧ callR id 99 w1Recipe w1St = (.ok (.vpath wTgt), w1St)
  ∧ callR id 7 wMemoRecipe wMemoSt = (.ok (.vint 42), wMemoSt) := by
  refine ⟨rfl, ?_, ?_⟩
  · exact (call_returns_cached_when_done.2.2 id 5 99 w1Recipe emptySt w1St
      (.vpath wTgt) wTgt rfl rfl).2
  · exact call_returns_cached_when_done.2.1 id 7 wMemoRecipe wMemoSt rfl rfl rfl

-- ------------------------------------------------------------------
-- C4: the produced value must resolve to the declared target

/-- C4: for a target-bearing recipe, every successful resolution returns
a path that resolves to the declared target, and whenever the recipe
actually resolves (it is not already done) with a `make()` value that is
not a string or `Path` resolving to the target, `__call__` raises. -/
theorem target_guard_on_resolution :
    ∀ (res : Str → Str) (now : Int) (r : RecipeM) (st : St) (t : Str),
      r.cfgOf.target = Option.some t →
      ((∀ v st', callR res now r st = (.ok v, st') →
          ∃ p, v = .vpath p ∧ res p = res t)
       ∧ (doneR st.fs now st r = .ok false →
          valMismatch res t r.cfgOf.makeRet →
          ∃ e st', callR res now r st = (.error e, st'))) := by
  intro res now r st t htgt
  refine ⟨fun v st' hcall => (call_target_success htgt hcall).1, fun hdone hmis => ?_⟩
  obtain ⟨rid, cfg, comps, deps⟩ := r
  simp only [RecipeM.cfgOf] at htgt hmis
  rw [callR_node, hdone]
  dsimp only
  rw [resolveR]
  rcases h1 : makeDependenciesR res now (.node rid cfg comps deps) st with ⟨o1, st₁⟩
  cases o1 with
  | error e => exact ⟨_, _, rfl⟩
  | ok u =>
    dsimp only
    rcases h2 : makeComponentsR res now (.node rid cfg comps deps) st₁ with ⟨o2, st₂⟩
    cases o2 with
    | error e => exact ⟨_, _, rfl⟩
    | ok vs =>
      dsimp only [RecipeM.cfgOf, RecipeM.ridOf]
      rw [htgt]
      dsimp only
      rcases hmk : cfg.makeRet with _ | s | p | n | xs <;> rw [hmk] at hmis
      · exact ⟨_, _, rfl⟩
      · dsimp only; rw [if_neg hmis]; exact ⟨_, _, rfl⟩
      · dsimp only; rw [if_neg hmis]; exact ⟨_, _, rfl⟩
      · exact ⟨_, _, rfl⟩
      · exact ⟨_, _, rfl⟩

/-- Witness for C4: the well-behaved fixture's successful resolution
yields a path resolving to the target, and the fixture whose `make()`
returns an integer fails. -/
theorem target_guard_on_resolution_witness :
    (∃ p, Val.vpath wTgt = Val.vpath p ∧ id p = id wTgt)
  ∧ ∃ e st', callR id 5 wBadRecipe emptySt = (.error e, st') := by
  constructor
  · exact (target_guard_on_resolution id 5 w1Recipe emptySt wTgt rfl).1
      (.vpath wTgt) w1St rfl
  · exact (target_guard_on_resolution id 5 wBadRecipe emptySt wTgt rfl).2 rfl trivial

-- ------------------------------------------------------------------
-- C5: keep=True targets survive every cleanup depth

theorem fsHas_fsRemove_ne {p t : Str} (h : ¬p = t) (fs : FS) :
    fsHas (fsRemove fs p) t = fsHas fs t := by
  induction fs with
  | nil => rfl
  | cons e rest ih =>
    rw [fsRemove, List.filter]
    by_cases hep : e.1 = p
    · simp only [hep, decide_True, Bool.not_true]
      rw [show fsHas (e :: rest) t = fsHas rest t by
        rw [fsHas, fsHas, fsGet]
        rw [if_neg (show ¬e.1 = t by rw [hep]; exact h)]]
      exact ih
    · simp only [decide_eq_true_eq, hep, decide_False, Bool.not_false]
      rw [fsHas, fsHas, fsGet, fsGet]
      by_cases het : e.1 = t
      · simp [het]
      · rw [if_neg het, if_neg het]
        exact ih

theorem fsHas_foldl_remove {t : Str} :
    ∀ (l : List Str), t ∉ l → ∀ fs : FS,
      fsHas (l.foldl fsRemove fs) t = fsHas fs t := by
  intro l
  induction l with
  | nil => intro _ fs; rfl
  | cons p rest ih =>
    intro hmem fs
    rw [List.foldl_cons, ih (fun hm => hmem (List.mem_cons_of_mem p hm))]
    exact fsHas_fsRemove_ne
      (fun hp => hmem (by rw [← hp]; exact List.mem_cons_self p rest)) fs

theorem cleanR_keepSurvives {t : Str} {n : RecipeM} (hks : keepSurvives t n)
    (st : St) (hfs : fsHas st.fs t = true) :
    fsHas (cleanR n st).fs t = true := by
  obtain ⟨hcl, hkp⟩ := hks
  rw [cleanR]
  have h₁ : fsHas (n.cfgOf.cleanupFiles.foldl fsRemove st.fs) t = true := by
    rw [fsHas_foldl_remove n.cfgOf.cleanupFiles hcl st.fs]
    exact hfs
  rcases htg : n.cfgOf.target with _ | u
  · exact h₁
  · dsimp only
    split
    · exact h₁
    · rename_i hcond
      have hut : ¬u = t := by
        intro hut
        subst hut
        have := hkp htg
        simp [this] at hcond
      rw [fsHas_fsRemove_ne hut]
      exact h₁

theorem cleanFold_keepSurvives {t : Str} :
    ∀ (l : List RecipeM), (∀ m ∈ l, keepSurvives t m) → ∀ st : St,
      fsHas st.fs t = true → fsHas (cleanFold l st).fs t = true := by
  intro l
  induction l with
  | nil => intro _ st h; exact h
  | cons c rest ih =>
    intro hall st hfs
    rw [cleanFold]
    exact ih (fun m hm => hall m (List.mem_cons_of_mem c hm)) _
      (cleanR_keepSurvives (hall c (List.mem_cons_self c rest)) st hfs)

theorem mem_allNodesL_of_mem {c x : RecipeM} :
    ∀ {l : List RecipeM}, c ∈ l → x ∈ allNodes c → x ∈ allNodes.allNodesL l := by
  intro l
  induction l with
  | nil => intro h; cases h
  | cons d rest ih =>
    intro hc hx
    rw [allNodes.allNodesL]
    rcases List.mem_cons.mp hc with rfl | hc'
    · exact List.mem_append_left _ hx
    · exact List.mem_append_right _ (ih hc' hx)

theorem self_mem_allNodes (n : RecipeM) : n ∈ allNodes n := by
  obtain ⟨rid, cfg, comps, deps⟩ := n
  rw [allNodes]
  exact List.mem_cons_self _ _

theorem tail_mem_allNodes {n x : RecipeM}
    (h : x ∈ allNodes.allNodesL n.compsOf ++ allNodes.allNodesL n.depsOf) :
    x ∈ allNodes n := by
  obtain ⟨rid, cfg, comps, deps⟩ := n
  rw [allNodes]
  exact List.mem_cons_of_mem _ h

mutual

theorem cleanComponentsRec_keepSurvives (t : Str) :
    ∀ (n : RecipeM) (st : St),
      (∀ m ∈ allNodes.allNodesL n.compsOf ++ allNodes.allNodesL n.depsOf,
        keepSurvives t m) →
      fsHas st.fs t = true → fsHas (cleanComponentsRec n st).fs t = true
  | .node rid cfg comps deps, st => by
    intro hall hfs
    rw [cleanComponentsRec]
    simp only [RecipeM.compsOf, RecipeM.depsOf] at hall
    have hcompsKS : ∀ m ∈ comps, keepSurvives t m := fun m hm =>
      hall m (List.mem_append_left _ (mem_allNodesL_of_mem hm (self_mem_allNodes m)))
    have hdepsKS : ∀ m ∈ deps, keepSurvives t m := fun m hm =>
      hall m (List.mem_append_right _ (mem_allNodesL_of_mem hm (self_mem_allNodes m)))
    refine cleanCompsFold_keepSurvives t deps _ ?_
      (cleanCompsFold_keepSurvives t comps _ ?_
        (cleanFold_keepSurvives deps hdepsKS _
          (cleanFold_keepSurvives comps hcompsKS st hfs)))
    · exact fun m hm => hall m (List.mem_append_right _ hm)
    · exact fun m hm => hall m (List.mem_append_left _ hm)

theorem cleanCompsFold_keepSurvives (t : Str) :
    ∀ (l : List RecipeM) (st : St),
      (∀ m ∈ allNodes.allNodesL l, keepSurvives t m) →
      fsHas st.fs t = true → fsHas (cleanCompsFold l st).fs t = true
  | [], _ => fun _ h => h
  | c :: rest, st => by
    intro hall hfs
    rw [cleanCompsFold]
    refine cleanCompsFold_keepSurvives t rest _ ?_
      (cleanComponentsRec_keepSurvives t c st ?_ hfs)
    · intro m hm
      refine hall m ?_
      rw [allNodes.allNodesL]
      exact List.mem_append_right _ hm
    · intro m hm
      refine hall m ?_
      rw [allNodes.allNodesL]
      exact List.mem_append_left _ (tail_mem_allNodes hm)

end

/-- C5: a `keep=True` recipe's existing target file is never deleted:
not by its own `clean()` (which removes only its cleanup files), and not
through a parent's `clean_components` at shallow or recursive depth —
provided, as construction guarantees, that no cleaned node lists that
path among its cleanup files and that any node producing that path is
itself `keep`. -/
theorem keep_target_survives_cleanup :
    (∀ (k : RecipeM) (st : St) (t : Str),
      k.cfgOf.target = Option.some t → k.cfgOf.keep = true →
      t ∉ k.cfgOf.cleanupFiles → fsHas st.fs t = true →
      fsHas (cleanR k st).fs t = true)
  ∧ (∀ (r : RecipeM) (st : St) (t : Str),
      (∀ m ∈ allNodes.allNodesL r.compsOf, keepSurvives t m) →
      fsHas st.fs t = true →
      fsHas (cleanComponentsShallow r st).fs t = true)
  ∧ (∀ (r : RecipeM) (st : St) (t : Str),
      (∀ m ∈ allNodes.allNodesL r.compsOf ++ allNodes.allNodesL r.depsOf,
        keepSurvives t m) →
      fsHas st.fs t = true →
      fsHas (cleanComponentsRec r st).fs t = true) := by
  refine ⟨fun k st t htgt hkeep hcl hfs => ?_, fun r st t hall hfs => ?_,
    fun r st t hall hfs => cleanComponentsRec_keepSurvives t r st hall hfs⟩
  · exact cleanR_keepSurvives ⟨hcl, fun _ => hkeep⟩ st hfs
  · rw [cleanComponentsShallow]
    refine cleanFold_keepSurvives r.compsOf ?_ st hfs
    intro m hm
    exact hall m (mem_allNodesL_of_mem hm (self_mem_allNodes m))

/-- Witness for C5: the concrete keep fixture's target survives a direct
clean and both depths of the parent's component cleanup. -/
theorem keep_target_survives_cleanup_witness :
    fsHas (cleanR c5Keep c5St).fs (("kept").data) = true
  ∧ fsHas (cleanComponentsShallow c5Parent c5St).fs (("kept").data) = true
  ∧ fsHas (cleanComponentsRec c5Parent c5St).fs (("kept").data) = true := by
  refine ⟨?_, ?_, ?_⟩
  · exact keep_target_survives_cleanup.1 c5Keep c5St (("kept").data)
      rfl rfl (by decide) rfl
  · exact keep_target_survives_cleanup.2.1 c5Parent c5St (("kept").data)
      (by decide) rfl
  · exact keep_target_survives_cleanup.2.2 c5Parent c5St (("kept").data)
      (by decide) rfl

-- ------------------------------------------------------------------
-- C2: concurrent sibling failures are collected into one CompositeError

/-- C2: for a `sync=False` recipe whose concurrent component gather
produces two or more exceptions, `__call__` raises a single `BuildError`
wrapping a `CompositeError` that carries every collected failure, and the
raised error's message text contains the (newline-free) message of every
underlying failure, not only the first. -/
theorem sibling_failures_aggregated :
    ∀ (res : Str → Str) (now : Int) (r : RecipeM) (st st₀ st₁ : St)
      (outs : List (Except PyErr Val)) (excs : List PyErr),
      r.cfgOf.sync = false →
      doneR st.fs now st r = .ok false →
      makeDependenciesR res now r st = (.ok (), st₀) →
      gatherCalls res now r.compsOf st₀ = (outs, st₁) →
      collectErrs outs = excs →
      2 ≤ excs.length →
      callR res now r st =
        (.error (.buildErr (sigilOf r)
          (PyErr.strOf (.compositeErr excs compsCompositeMsg))), st₁)
      ∧ ∀ e ∈ excs, nlChar ∉ PyErr.strOf e →
          IsSubstr (PyErr.strOf (.buildErr (sigilOf r)
            (PyErr.strOf (.compositeErr excs compsCompositeMsg)))) (PyErr.strOf e) := by
  intro res now r st st₀ st₁ outs excs hsync hdone hdeps hgather hexcs hlen
  constructor
  · obtain ⟨rid, cfg, comps, deps⟩ := r
    simp only [RecipeM.cfgOf, RecipeM.compsOf] at hsync hgather
    rw [callR_node, hdone, resolveR, hdeps]
    dsimp only
    rw [makeComponentsR]
    simp only [RecipeM.cfgOf, RecipeM.compsOf]
    rw [if_neg (show ¬cfg.sync = true by rw [hsync]; simp)]
    rw [hgather, gatherOutcome]
    dsimp only
    subst hexcs
    rcases hc : collectErrs outs with _ | ⟨e, es⟩
    · rw [hc] at hlen; simp at hlen
    · dsimp only
      rfl
  · intro e he hnl
    exact buildErr_strOf_contains (composite_strOf_contains he hnl)

-- ------------------------------------------------------------------
-- C9: a targetless recipe whose make() returns None fails hard

/-- C9: for a recipe without a file target whose `make()` returns `None`,
once dependencies and components resolve successfully `__call__` raises a
`BuildError` (the post-`make` `done()` re-check fails) and `saved_result`
is reset to `None`, so no partial result is recorded. -/
theorem none_result_is_hard_failure :
    ∀ (res : Str → Str) (now : Int) (r : RecipeM) (st st₀ st₁ : St) (vs : List Val),
      r.cfgOf.target = Option.none →
      r.cfgOf.makeRet = .none →
      (r.cfgOf.memoize = false ∨ (st.savedOf r.ridOf).isNone = true) →
      makeDependenciesR res now r st = (.ok (), st₀) →
      makeComponentsR res now r st₀ = (.ok vs, st₁) →
      ∃ st₂, callR res now r st =
          (.error (.buildErr (sigilOf r) resolveIncompleteMsg), st₂)
        ∧ st₂.savedOf r.ridOf = Val.none := by
  intro res now r st st₀ st₁ vs htgt hret hmem hdeps hcomps
  obtain ⟨rid, cfg, comps, deps⟩ := r
  simp only [RecipeM.cfgOf, RecipeM.ridOf] at htgt hret hmem
  have hbody :
      wrapBE (sigilOf (.node rid cfg comps deps))
        (resolveR res now (.node rid cfg comps deps) st) =
      (.error (.buildErr (sigilOf (.node rid cfg comps deps)) resolveIncompleteMsg),
        ((({ st₁ with fs := fsPutAll st₁.fs cfg.makeWrites }).bumpCount rid).setSaved
          rid Val.none).setSaved rid Val.none) := by
    rw [resolveR, hdeps]
    dsimp only
    rw [hcomps]
    dsimp only [RecipeM.cfgOf, RecipeM.ridOf]
    rw [htgt]
    dsimp only
    rw [hret, finishResolve]
    dsimp only [RecipeM.ridOf]
    rw [doneR]
    dsimp only [RecipeM.cfgOf, RecipeM.ridOf]
    rw [htgt]
    dsimp only
    rw [savedOf_setSaved_self]
    rfl
  rw [callR_node]
  rw [doneR]
  simp only [RecipeM.cfgOf, RecipeM.ridOf, htgt]
  rcases hsv : (st.savedOf rid).isNone with _ | _
  · have hmemo : cfg.memoize = false := by
      rcases hmem with h | h
      · exact h
      · rw [h] at hsv; cases hsv
    rw [hmemo]
    simp only [Bool.not_false, if_false, Bool.false_eq_true]
    refine ⟨_, hbody, ?_⟩
    rw [savedOf_setSaved_self]
  · simp only [Bool.not_true]
    refine ⟨_, hbody, ?_⟩
    rw [savedOf_setSaved_self]

/-- Witness for C2: the concrete three-sibling fixture, where the two
failing components' `BuildError` messages both occur inside the parent's
single raised error text. -/
theorem sibling_failures_aggregated_witness :
    (callR id 0 c2Parent emptySt).1 =
      .error (.buildErr (("parent").data)
        (PyErr.strOf (.compositeErr [c2Err (("alpha").data), c2Err (("beta").data)]
          compsCompositeMsg)))
  ∧ IsSubstr
      (PyErr.strOf (.buildErr (("parent").data)
        (PyErr.strOf (.compositeErr [c2Err (("alpha").data), c2Err (("beta").data)]
          compsCompositeMsg))))
      (PyErr.strOf (c2Err (("alpha").data)))
  ∧ IsSubstr
      (PyErr.strOf (.buildErr (("parent").data)
        (PyErr.strOf (.compositeErr [c2Err (("alpha").data), c2Err (("beta").data)]
          compsCompositeMsg))))
      (PyErr.strOf (c2Err (("beta").data))) := by
  have h := sibling_failures_aggregated id 0 c2Parent emptySt _ _ _ _
    rfl rfl rfl rfl rfl (by decide)
  refine ⟨?_, ?_, ?_⟩
  · rw [h.1]; rfl
  · exact h.2 (c2Err (("alpha").data)) (List.Mem.head _) (by decide)
  · exact h.2 (c2Err (("beta").data)) (List.Mem.tail _ (List.Mem.head _)) (by decide)

/-- Witness for C9: the concrete targetless recipe whose `make()` returns
`None`. -/
theorem none_result_is_hard_failure_witness :
    ∃ st₂, callR id 0 c9Recipe emptySt =
        (.error (.buildErr (("c9").data) resolveIncompleteMsg), st₂)
      ∧ st₂.savedOf 4 = Val.none :=
  none_result_is_hard_failure id 0 c9Recipe emptySt emptySt emptySt []
    rfl rfl (Or.inl rfl) rfl rfl

-- ------------------------------------------------------------------
-- C10: the declared target is excluded from static and cleanup files

/-- C10: for every recipe constructed with a declared target, the target
path is excluded at construction from both `static_files` and
`cleanup_files`, so a recipe's own output never counts as one of its
static inputs and is never removed through the cleanup-file list. -/
theorem target_excluded_at_construction :
    ∀ (rid : Nat) (name : Str) (t : Str) (statics cleanups : List Str)
      (memoize sync keep : Bool) (makeRet : Val) (makeWrites : List (Str × FMeta))
      (comps deps : List RecipeM),
      t ∉ (mkRecipe rid name (Option.some t) statics cleanups memoize sync keep
            makeRet makeWrites comps deps).cfgOf.staticFiles ∧
      t ∉ (mkRecipe rid name (Option.some t) statics cleanups memoize sync keep
            makeRet makeWrites comps deps).cfgOf.cleanupFiles := by
  intro rid name t statics cleanups memoize sync keep makeRet makeWrites comps deps
  constructor <;>
  · intro hmem
    rw [mkRecipe, RecipeM.cfgOf] at hmem
    simp at hmem

-- ------------------------------------------------------------------
-- C3: the staleness rule and the dependencies-age guard bug

/-- C3 (code bug): at the failing input — a file-target recipe whose only
input is an ordering-only dependency with a strictly newer target — the
source's `outdated` returns `False` while the claim's staleness formula
says `True`, because `dependencies_age` guards its minimum on
`has_components()` instead of on the dependency list; with the same
dependency attached as a component and no dependencies, the same guard
lets `min()` raise `ValueError` on an empty sequence. -/
theorem dependencies_age_guard_bug :
    outdatedR c3Fs 20 c3Recipe = .ok false
  ∧ claimOutdated c3Fs 20 c3Recipe = .ok true
  ∧ dependenciesAge c3Fs 20 c3Recipe = .ok .xt
  ∧ inputsAge c3Fs 20 c3CompRecipe =
      .error (.valueErr (("min() arg is an empty sequence").data)) :=
  ⟨rfl, rfl, rfl, rfl⟩

-- ------------------------------------------------------------------
-- C8: query-mode semantics (modelled from the spec)

theorem countFold (p : Str → Bool) (l : List Str) :
    ∀ acc : Nat, l.foldl (fun n x => if p x then n else n + 1) acc =
      acc + (l.filter (fun x => !p x)).length := by
  induction l with
  | nil => intro acc; simp
  | cons x xs ih =>
    intro acc
    by_cases hx : p x <;> simp [hx, ih, Nat.add_comm, Nat.add_assoc, Nat.add_left_comm]

/-- C8: the query mode returns the count of requested names (split on
commas) that are not resolvable targets in the registry, `0` exactly when
every listed name exists; in particular `query("known,missing")` against
a registry holding only `known` returns `1`, and `query("a,b")` against
an empty registry returns `2`. -/
theorem query_counts_missing_names :
    (∀ (registry : List Str) (arg : Str),
      queryMode registry arg =
        ((pysplit arg (',')).filter (fun n => !(registry.contains n))).length)
  ∧ (∀ (registry : List Str) (arg : Str),
      queryMode registry arg = 0 ↔
        ∀ n ∈ pysplit arg (','), registry.contains n = true)
  ∧ queryMode [(("known").data)] (("known,missing").data) = 1
  ∧ queryMode [] (("a,b").data) = 2 := by
  refine ⟨fun registry arg => ?_, fun registry arg => ?_, by decide, by decide⟩
  · rw [queryMode, countFold]
    simp
  · rw [queryMode, countFold]
    simp only [Nat.zero_add, List.length_eq_zero, List.filter_eq_nil_iff]
    constructor
    · intro h n hn
      have := h n hn
      simpa using this
    · intro h n hn
      simpa using h n hn

-- ------------------------------------------------------------------
-- C6: helper lemmas about the Scanner state

theorem get?_set_self {α : Type} :
    ∀ (l : List α) (o : Nat) (x : α), o < l.length →
      (l.set o x).get? o = Option.some x
  | [], o, _ => fun h => absurd h (Nat.not_lt_zero o)
  | _ :: _, 0, _ => fun _ => rfl
  | _ :: as, o + 1, x => fun h => get?_set_self as o x (Nat.lt_of_succ_lt_succ h)

theorem get?_set_other {α : Type} :
    ∀ (l : List α) (o i : Nat) (x : α), ¬i = o →
      (l.set o x).get? i = l.get? i
  | [], _, _, _ => fun _ => rfl
  | _ :: _, 0, 0, _ => fun h => absurd rfl h
  | _ :: _, 0, _ + 1, _ => fun _ => rfl
  | _ :: _, _ + 1, 0, _ => fun _ => rfl
  | _ :: as, o + 1, i + 1, x => fun h =>
    get?_set_other as o i x (fun hio => h (by rw [hio]))

theorem setAtOffset_get_self (f : SVal → SVal) (l : List SVal) (o : Nat) :
    (setAtOffset f l o).get? o = (l.get? o).map (applyMode f) := by
  rw [setAtOffset]
  rcases hg : l.get? o with _ | v
  · dsimp only
    rw [hg]
    rfl
  · dsimp only
    obtain ⟨hlt, _⟩ := List.get?_eq_some.mp hg
    rw [get?_set_self l o (applyMode f v) hlt]
    rfl

theorem setAtOffset_get_other (f : SVal → SVal) (l : List SVal) (o i : Nat)
    (h : ¬i = o) : (setAtOffset f l o).get? i = l.get? i := by
  rw [setAtOffset]
  rcases hg : l.get? o with _ | v
  · rfl
  · dsimp only
    exact get?_set_other l o i _ h

theorem foldl_setAtOffset_get (f : SVal → SVal) :
    ∀ (offsets : List Nat), offsets.Nodup → ∀ (l : List SVal) (i : Nat),
      (offsets.foldl (setAtOffset f) l).get? i =
        if i ∈ offsets then (l.get? i).map (applyMode f) else l.get? i := by
  intro offsets
  induction offsets with
  | nil => intro _ l i; simp
  | cons o os ih =>
    intro hnd l i
    rw [List.foldl_cons, ih (List.nodup_cons.mp hnd).2]
    by_cases hio : i = o
    · subst hio
      rw [if_neg (List.nodup_cons.mp hnd).1, if_pos (List.mem_cons_self i os)]
      exact setAtOffset_get_self f l i
    · rw [setAtOffset_get_other f l o i hio]
      by_cases hios : i ∈ os
      · rw [if_pos hios, if_pos (List.mem_cons_of_mem o hios)]
      · rw [if_neg hios, if_neg (fun hm => by
          rcases List.mem_cons.mp hm with h | h
          exacts [hio h, hios h])]

theorem recipeOffsets_ge :
    ∀ (as : List SVal) (i o : Nat), o ∈ recipeOffsets i as → i ≤ o := by
  intro as
  induction as with
  | nil => intro i o h; cases h
  | cons a rest ih =>
    intro i o h
    rw [recipeOffsets] at h
    rcases List.mem_append.mp h with h1 | h2
    · by_cases hr : scanOne a = PType.recipe
      · rw [if_pos hr] at h1
        rw [List.mem_singleton.mp h1]
      · rw [if_neg hr] at h1; cases h1
    · have := ih (i + 1) o h2
      omega

theorem recipeOffsets_nodup :
    ∀ (as : List SVal) (i : Nat), (recipeOffsets i as).Nodup := by
  intro as
  induction as with
  | nil => intro _; exact List.nodup_nil
  | cons a rest ih =>
    intro i
    rw [recipeOffsets]
    by_cases hr : scanOne a = PType.recipe
    · rw [if_pos hr]
      simp only [List.singleton_append, List.nodup_cons]
      refine ⟨fun hm => ?_, ih (i + 1)⟩
      have := recipeOffsets_ge rest (i + 1) i hm
      omega
    · rw [if_neg hr]
      simpa using ih (i + 1)

theorem mem_recipeOffsets_iff :
    ∀ (as : List SVal) (base j : Nat) (v : SVal),
      as.get? j = Option.some v →
      ((base + j) ∈ recipeOffsets base as ↔ scanOne v = PType.recipe) := by
  intro as
  induction as with
  | nil => intro base j v h; cases h
  | cons a rest ih =>
    intro base j v h
    rw [recipeOffsets]
    cases j with
    | zero =>
      injection h with hav
      rw [Nat.add_zero, ← hav]
      constructor
      · intro hm
        rcases List.mem_append.mp hm with h1 | h2
        · by_cases hr : scanOne a = PType.recipe
          · exact hr
          · rw [if_neg hr] at h1; cases h1
        · have := recipeOffsets_ge rest (base + 1) base h2
          omega
      · intro hr
        exact List.mem_append_left _ (by rw [if_pos hr]; exact List.mem_cons_self _ _)
    | succ j' =>
      have h' : rest.get? j' = Option.some v := h
      rw [show base + (j' + 1) = (base + 1) + j' by omega]
      constructor
      · intro hm
        rcases List.mem_append.mp hm with h1 | h2
        · by_cases hr : scanOne a = PType.recipe
          · rw [if_pos hr] at h1
            have := List.mem_singleton.mp h1
            omega
          · rw [if_neg hr] at h1; cases h1
        · exact (ih (base + 1) j' v h').mp h2
      · intro hr
        exact List.mem_append_right _ ((ih (base + 1) j' v h').mpr hr)

theorem scanAtOffset_args (st : ScannerSt) (i : Nat) (v : SVal) :
    (scanAtOffset st i v).args = st.args ++ [v] := by
  rw [scanAtOffset]
  dsimp only
  split <;> rfl

theorem scanAtOffset_argOffsets (st : ScannerSt) (i : Nat) (v : SVal) :
    (scanAtOffset st i v).argOffsets =
      st.argOffsets ++ (if scanOne v = PType.recipe then [i] else []) := by
  rw [scanAtOffset]
  dsimp only
  by_cases hp : scanOne v = PType.path <;> by_cases hr : scanOne v = PType.recipe <;>
    simp [hp, hr]

theorem scanAtOffset_kwargs (st : ScannerSt) (i : Nat) (v : SVal) :
    (scanAtOffset st i v).kwargs = st.kwargs := by
  rw [scanAtOffset]
  dsimp only
  split <;> rfl

theorem scanAtOffset_kwargKeys (st : ScannerSt) (i : Nat) (v : SVal) :
    (scanAtOffset st i v).kwargKeys = st.kwargKeys := by
  rw [scanAtOffset]
  dsimp only
  split <;> rfl

theorem scanAtKey_args (st : ScannerSt) (k : Str) (v : SVal) :
    (scanAtKey st k v).args = st.args := by
  rw [scanAtKey]
  dsimp only
  split <;> rfl

theorem scanAtKey_argOffsets (st : ScannerSt) (k : Str) (v : SVal) :
    (scanAtKey st k v).argOffsets = st.argOffsets := by
  rw [scanAtKey]
  dsimp only
  split <;> rfl

theorem scanAtKey_kwargs (st : ScannerSt) (k : Str) (v : SVal) :
    (scanAtKey st k v).kwargs = st.kwargs ++ [(k, v)] := by
  rw [scanAtKey]
  dsimp only
  split <;> rfl

theorem scanAtKey_kwargKeys (st : ScannerSt) (k : Str) (v : SVal) :
    (scanAtKey st k v).kwargKeys =
      st.kwargKeys ++ (if scanOne v = PType.recipe then [k] else []) := by
  rw [scanAtKey]
  dsimp only
  by_cases hp : scanOne v = PType.path <;> by_cases hr : scanOne v = PType.recipe <;>
    simp [hp, hr]

theorem scanArgsFrom_args :
    ∀ (as : List SVal) (i : Nat) (st : ScannerSt),
      (scanArgsFrom i as st).args = st.args ++ as := by
  intro as
  induction as with
  | nil => intro i st; simp [scanArgsFrom]
  | cons a rest ih =>
    intro i st
    rw [scanArgsFrom, ih, scanAtOffset_args]
    simp

theorem scanArgsFrom_argOffsets :
    ∀ (as : List SVal) (i : Nat) (st : ScannerSt),
      (scanArgsFrom i as st).argOffsets = st.argOffsets ++ recipeOffsets i as := by
  intro as
  induction as with
  | nil => intro i st; simp [scanArgsFrom, recipeOffsets]
  | cons a rest ih =>
    intro i st
    rw [scanArgsFrom, ih, scanAtOffset_argOffsets, recipeOffsets]
    simp

theorem scanArgsFrom_kwargs :
    ∀ (as : List SVal) (i : Nat) (st : ScannerSt),
      (scanArgsFrom i as st).kwargs = st.kwargs := by
  intro as
  induction as with
  | nil => intro i st; rfl
  | cons a rest ih =>
    intro i st
    rw [scanArgsFrom, ih, scanAtOffset_kwargs]

theorem scanArgsFrom_kwargKeys :
    ∀ (as : List SVal) (i : Nat) (st : ScannerSt),
      (scanArgsFrom i as st).kwargKeys = st.kwargKeys := by
  intro as
  induction as with
  | nil => intro i st; rfl
  | cons a rest ih =>
    intro i st
    rw [scanArgsFrom, ih, scanAtOffset_kwargKeys]

theorem scanKwargsAll_args :
    ∀ (ks : List (Str × SVal)) (st : ScannerSt),
      (scanKwargsAll ks st).args = st.args := by
  intro ks
  induction ks with
  | nil => intro st; rfl
  | cons e rest ih =>
    intro st
    rw [scanKwargsAll, ih, scanAtKey_args]

theorem scanKwargsAll_argOffsets :
    ∀ (ks : List (Str × SVal)) (st : ScannerSt),
      (scanKwargsAll ks st).argOffsets = st.argOffsets := by
  intro ks
  induction ks with
  | nil => intro st; rfl
  | cons e rest ih =>
    intro st
    rw [scanKwargsAll, ih, scanAtKey_argOffsets]

theorem scanKwargsAll_kwargs :
    ∀ (ks : List (Str × SVal)) (st : ScannerSt),
      (scanKwargsAll ks st).kwargs = st.kwargs ++ ks := by
  intro ks
  induction ks with
  | nil => intro st; simp [scanKwargsAll]
  | cons e rest ih =>
    intro st
    rw [scanKwargsAll, ih, scanAtKey_kwargs]
    simp

theorem scanKwargsAll_kwargKeys :
    ∀ (ks : List (Str × SVal)) (st : ScannerSt),
      (scanKwargsAll ks st).kwargKeys = st.kwargKeys ++ recipeKeys ks := by
  intro ks
  induction ks with
  | nil => intro st; simp [scanKwargsAll, recipeKeys]
  | cons e rest ih =>
    intro st
    rw [scanKwargsAll, ih, scanAtKey_kwargKeys, recipeKeys]
    simp

theorem scanParams_args (args : List SVal) (kwargs : List (Str × SVal)) :
    (scanParams args kwargs).args = args := by
  rw [scanParams, scanKwargsAll_args, scanArgsFrom_args]
  rfl

theorem scanParams_argOffsets (args : List SVal) (kwargs : List (Str × SVal)) :
    (scanParams args kwargs).argOffsets = recipeOffsets 0 args := by
  rw [scanParams, scanKwargsAll_argOffsets, scanArgsFrom_argOffsets]
  rfl

theorem scanParams_kwargs (args : List SVal) (kwargs : List (Str × SVal)) :
    (scanParams args kwargs).kwargs = kwargs := by
  rw [scanParams, scanKwargsAll_kwargs, scanArgsFrom_kwargs]
  rfl

theorem scanParams_kwargKeys (args : List SVal) (kwargs : List (Str × SVal)) :
    (scanParams args kwargs).kwargKeys = recipeKeys kwargs := by
  rw [scanParams, scanKwargsAll_kwargKeys, scanArgsFrom_kwargKeys]
  rfl

theorem setAtKey_cons (f : SVal → SVal) (e : Str × SVal) (rest : List (Str × SVal))
    (k' : Str) :
    setAtKey f (e :: rest) k' =
      (if e.1 = k' then (e.1, applyMode f e.2) else e) :: setAtKey f rest k' := rfl

theorem kwGet_setAtKey (f : SVal → SVal) :
    ∀ (l : List (Str × SVal)) (k' k : Str),
      kwGet (setAtKey f l k') k =
        if k = k' then (kwGet l k).map (applyMode f) else kwGet l k := by
  intro l
  induction l with
  | nil =>
    intro k' k
    rw [show setAtKey f [] k' = [] from rfl]
    rw [kwGet]
    split <;> rfl
  | cons e rest ih =>
    intro k' k
    rw [setAtKey_cons]
    by_cases h1 : e.1 = k'
    · rw [if_pos h1, kwGet, kwGet]
      by_cases h2 : e.1 = k
      · rw [if_pos h2, if_pos h2, if_pos (by rw [← h2, h1])]
        rfl
      · rw [if_neg h2, if_neg h2]
        exact ih k' k
    · rw [if_neg h1, kwGet, kwGet]
      by_cases h2 : e.1 = k
      · rw [if_pos h2, if_pos h2,
          if_neg (fun hkk' => h1 (by rw [h2, hkk']))]
      · rw [if_neg h2, if_neg h2]
        exact ih k' k

theorem foldl_setAtKey_get (f : SVal → SVal) :
    ∀ (keys : List Str), keys.Nodup → ∀ (l : List (Str × SVal)) (k : Str),
      kwGet (keys.foldl (setAtKey f) l) k =
        if k ∈ keys then (kwGet l k).map (applyMode f) else kwGet l k := by
  intro keys
  induction keys with
  | nil => intro _ l k; simp
  | cons k' ks ih =>
    intro hnd l k
    rw [List.foldl_cons, ih (List.nodup_cons.mp hnd).2]
    by_cases hkk : k = k'
    · subst hkk
      rw [if_neg (List.nodup_cons.mp hnd).1, if_pos (List.mem_cons_self k ks)]
      rw [kwGet_setAtKey f l k k, if_pos rfl]
    · rw [kwGet_setAtKey f l k' k, if_neg hkk]
      by_cases hks : k ∈ ks
      · rw [if_pos hks, if_pos (List.mem_cons_of_mem k' hks)]
      · rw [if_neg hks, if_neg (fun hm => by
          rcases List.mem_cons.mp hm with h | h
          exacts [hkk h, hks h])]

theorem recipeKeys_subset_keys :
    ∀ (l : List (Str × SVal)) (k : Str), k ∈ recipeKeys l → k ∈ l.map Prod.fst := by
  intro l
  induction l with
  | nil => intro k h; cases h
  | cons e rest ih =>
    intro k h
    rw [recipeKeys] at h
    rw [List.map_cons]
    rcases List.mem_append.mp h with h1 | h2
    · by_cases hr : scanOne e.2 = PType.recipe
      · rw [if_pos hr] at h1
        rw [List.mem_singleton.mp h1]
        exact List.mem_cons_self _ _
      · rw [if_neg hr] at h1; cases h1
    · exact List.mem_cons_of_mem _ (ih k h2)

theorem recipeKeys_nodup :
    ∀ (l : List (Str × SVal)), (l.map Prod.fst).Nodup → (recipeKeys l).Nodup := by
  intro l
  induction l with
  | nil => intro _; exact List.nodup_nil
  | cons e rest ih =>
    intro hnd
    rw [List.map_cons, List.nodup_cons] at hnd
    rw [recipeKeys]
    by_cases hr : scanOne e.2 = PType.recipe
    · rw [if_pos hr]
      simp only [List.singleton_append, List.nodup_cons]
      exact ⟨fun hm => hnd.1 (recipeKeys_subset_keys rest e.1 hm), ih hnd.2⟩
    · rw [if_neg hr]
      simpa using ih hnd.2

theorem mem_recipeKeys_iff :
    ∀ (l : List (Str × SVal)), (l.map Prod.fst).Nodup →
      ∀ (k : Str) (v : SVal), kwGet l k = Option.some v →
      (k ∈ recipeKeys l ↔ scanOne v = PType.recipe) := by
  intro l
  induction l with
  | nil => intro _ k v h; cases h
  | cons e rest ih =>
    intro hnd k v h
    rw [List.map_cons, List.nodup_cons] at hnd
    rw [recipeKeys]
    rw [kwGet] at h
    by_cases hek : e.1 = k
    · rw [if_pos hek] at h
      injection h with hv
      subst hv
      constructor
      · intro hm
        rcases List.mem_append.mp hm with h1 | h2
        · by_cases hr : scanOne e.2 = PType.recipe
          · exact hr
          · rw [if_neg hr] at h1; cases h1
        · exact absurd (by rw [hek]; exact recipeKeys_subset_keys rest k h2) hnd.1
      · intro hr
        refine List.mem_append_left _ ?_
        rw [if_pos hr, ← hek]
        exact List.mem_singleton.mpr rfl
    · rw [if_neg hek] at h
      constructor
      · intro hm
        rcases List.mem_append.mp hm with h1 | h2
        · by_cases hr : scanOne e.2 = PType.recipe
          · rw [if_pos hr] at h1
            exact absurd (List.mem_singleton.mp h1).symm hek
          · rw [if_neg hr] at h1; cases h1
        · exact (ih hnd.2 k v h).mp h2
      · intro hr
        exact List.mem_append_right _ ((ih hnd.2 k v h).mpr hr)

-- ------------------------------------------------------------------
-- C6: the Scanner's pass modes

/-- C6: `args(mode)`/`kwargs(mode)` reconstruct the original call with
only RECIPE-classified entries replaced: NORMAL returns every argument
untouched; RESULTS replaces each RECIPE entry by its computed result
(element-wise for a homogeneous recipe list); TARGETS replaces each
RECIPE entry by its target path, or by the recipe itself when it has no
target; NORMAL- and PATH-classified arguments are identical in all three
modes. -/
theorem scanner_modes_replace_only_recipes :
    ∀ (args : List SVal) (kwargs : List (Str × SVal)),
      (argsMode .normal (scanParams args kwargs) = args)
    ∧ (kwargsMode .normal (scanParams args kwargs) = kwargs)
    ∧ (∀ (i : Nat) (v : SVal), args.get? i = Option.some v →
        ((¬scanOne v = PType.recipe →
          (argsMode .results (scanParams args kwargs)).get? i = Option.some v
          ∧ (argsMode .targets (scanParams args kwargs)).get? i = Option.some v)
        ∧ (scanOne v = PType.recipe →
          (argsMode .results (scanParams args kwargs)).get? i
              = Option.some (applyMode resultOfS v)
          ∧ (argsMode .targets (scanParams args kwargs)).get? i
              = Option.some (applyMode targetOrOf v))))
    ∧ ((kwargs.map Prod.fst).Nodup →
        ∀ (k : Str) (v : SVal), kwGet kwargs k = Option.some v →
        ((¬scanOne v = PType.recipe →
          kwGet (kwargsMode .results (scanParams args kwargs)) k = Option.some v
          ∧ kwGet (kwargsMode .targets (scanParams args kwargs)) k = Option.some v)
        ∧ (scanOne v = PType.recipe →
          kwGet (kwargsMode .results (scanParams args kwargs)) k
              = Option.some (applyMode resultOfS v)
          ∧ kwGet (kwargsMode .targets (scanParams args kwargs)) k
              = Option.some (applyMode targetOrOf v)))) := by
  intro args kwargs
  have hargsGet : ∀ (f : SVal → SVal) (i : Nat),
      ((scanParams args kwargs).argOffsets.foldl (setAtOffset f)
        (scanParams args kwargs).args).get? i =
      if i ∈ recipeOffsets 0 args then (args.get? i).map (applyMode f)
      else args.get? i := by
    intro f i
    rw [scanParams_args, scanParams_argOffsets,
      foldl_setAtOffset_get f (recipeOffsets 0 args) (recipeOffsets_nodup args 0) args i]
  refine ⟨?_, ?_, ?_, ?_⟩
  · rw [show argsMode .normal (scanParams args kwargs) =
      (scanParams args kwargs).args from rfl, scanParams_args]
  · rw [show kwargsMode .normal (scanParams args kwargs) =
      (scanParams args kwargs).kwargs from rfl, scanParams_kwargs]
  · intro i v hget
    have hoff : (i ∈ recipeOffsets 0 args) ↔ scanOne v = PType.recipe := by
      have := mem_recipeOffsets_iff args 0 i v hget
      simpa using this
    constructor
    · intro hnr
      have hnotin : i ∉ recipeOffsets 0 args := fun hm => hnr (hoff.mp hm)
      constructor
      · rw [show argsMode .results (scanParams args kwargs) =
          (scanParams args kwargs).argOffsets.foldl (setAtOffset resultOfS)
            (scanParams args kwargs).args from rfl]
        rw [hargsGet, if_neg hnotin]
        exact hget
      · rw [show argsMode .targets (scanParams args kwargs) =
          (scanParams args kwargs).argOffsets.foldl (setAtOffset targetOrOf)
            (scanParams args kwargs).args from rfl]
        rw [hargsGet, if_neg hnotin]
        exact hget
    · intro hr
      constructor
      · rw [show argsMode .results (scanParams args kwargs) =
          (scanParams args kwargs).argOffsets.foldl (setAtOffset resultOfS)
            (scanParams args kwargs).args from rfl]
        rw [hargsGet, if_pos (hoff.mpr hr), hget]
        rfl
      · rw [show argsMode .targets (scanParams args kwargs) =
          (scanParams args kwargs).argOffsets.foldl (setAtOffset targetOrOf)
            (scanParams args kwargs).args from rfl]
        rw [hargsGet, if_pos (hoff.mpr hr), hget]
        rfl
  · intro hnd k v hget
    have hkey : (k ∈ recipeKeys kwargs) ↔ scanOne v = PType.recipe :=
      mem_recipeKeys_iff kwargs hnd k v hget
    have hndk := recipeKeys_nodup kwargs hnd
    have hkwGet : ∀ (f : SVal → SVal),
        kwGet ((scanParams args kwargs).kwargKeys.foldl (setAtKey f)
          (scanParams args kwargs).kwargs) k =
        if k ∈ recipeKeys kwargs then (kwGet kwargs k).map (applyMode f)
        else kwGet kwargs k := by
      intro f
      rw [scanParams_kwargs, scanParams_kwargKeys]
      exact foldl_setAtKey_get f (recipeKeys kwargs) hndk kwargs k
    constructor
    · intro hnr
      have hnotin : k ∉ recipeKeys kwargs := fun hm => hnr (hkey.mp hm)
      constructor
      · rw [show kwargsMode .results (scanParams args kwargs) =
          (scanParams args kwargs).kwargKeys.foldl (setAtKey resultOfS)
            (scanParams args kwargs).kwargs from rfl]
        rw [hkwGet, if_neg hnotin]
        exact hget
      · rw [show kwargsMode .targets (scanParams args kwargs) =
          (scanParams args kwargs).kwargKeys.foldl (setAtKey targetOrOf)
            (scanParams args kwargs).kwargs from rfl]
        rw [hkwGet, if_neg hnotin]
        exact hget
    · intro hr
      constructor
      · rw [show kwargsMode .results (scanParams args kwargs) =
          (scanParams args kwargs).kwargKeys.foldl (setAtKey resultOfS)
            (scanParams args kwargs).kwargs from rfl]
        rw [hkwGet, if_pos (hkey.mpr hr), hget]
        rfl
      · rw [show kwargsMode .targets (scanParams args kwargs) =
          (scanParams args kwargs).kwargKeys.foldl (setAtKey targetOrOf)
            (scanParams args kwargs).kwargs from rfl]
        rw [hkwGet, if_pos (hkey.mpr hr), hget]
        rfl

-- ------------------------------------------------------------------
-- C7: redaction hides parameters from display only

theorem wrapParams_nil (p : Params) : wrapParams [] p = p := by
  induction p with
  | nil => rfl
  | cons e rest ih =>
    simp only [wrapParams, List.map_cons] at ih ⊢
    rw [show applyWrapper [] e.1 e.2 = e.2 from rfl, ih]

theorem redactParams_nil (p : Params) : redactParams [] p = p := by
  induction p with
  | nil => rfl
  | cons e rest ih =>
    simp only [redactParams, List.map_cons] at ih ⊢
    rw [if_neg (List.not_mem_nil e.1), ih]

theorem redact_wrap_eq (w : Wrappers) (R : List Str) :
    ∀ {p₁ p₂ : Params},
      List.Forall₂ (fun a b : Str × Str => a.1 = b.1 ∧ (a.1 ∉ R → a.2 = b.2)) p₁ p₂ →
      redactParams R (wrapParams w p₁) = redactParams R (wrapParams w p₂) := by
  intro p₁ p₂ h
  induction h with
  | nil => rfl
  | cons hab hrest ih =>
    rename_i a b l₁ l₂
    obtain ⟨hk, hv⟩ := hab
    simp only [wrapParams, redactParams, List.map_cons, List.map_map] at ih ⊢
    rw [ih, ← hk]
    by_cases hmem : a.1 ∈ R
    · rw [if_pos hmem, if_pos hmem]
    · rw [if_neg hmem, if_neg hmem, hv hmem]

/-- C7: for any command template, wrapper map and redacted-name set, two
parameter maps that agree (name for name) outside the redacted set
produce identical displayed command text — every redacted parameter
renders as `<redacted>` regardless of its value — while `Shell.run`
interpolates the executed command from the real parameter values with no
wrapper and no redaction applied. -/
theorem redaction_hides_only_display :
    (∀ (cmd : List Tok) (env : Params) (w : Wrappers) (R : List Str) (p₁ p₂ : Params),
      List.Forall₂ (fun a b : Str × Str => a.1 = b.1 ∧ (a.1 ∉ R → a.2 = b.2)) p₁ p₂ →
      interpolate cmd env p₁ w R = interpolate cmd env p₂ w R)
  ∧ (∀ (cmd : List Tok) (env : Params) (p : Params),
      runCommandText cmd env p = substTemplate env p cmd) := by
  constructor
  · intro cmd env w R p₁ p₂ hagree
    rw [interpolate, interpolate, redact_wrap_eq w R hagree]
  · intro cmd env p
    rw [runCommandText, interpolate, wrapParams_nil, redactParams_nil]

/-- Witness for C7: two maps differing only in the redacted `pw` value
display identically (`echo <redacted>`), while the executed text carries
the real secret. -/
theorem redaction_hides_only_display_witness :
    interpolate c7Cmd [] c7P1 [] c7R = interpolate c7Cmd [] c7P2 [] c7R
  ∧ interpolate c7Cmd [] c7P1 [] c7R = .ok (("echo <redacted>").data)
  ∧ runCommandText c7Cmd [] c7P1 = substTemplate [] c7P1 c7Cmd
  ∧ runCommandText c7Cmd [] c7P1 = .ok (("echo secretA").data) := by
  refine ⟨?_, rfl, ?_, rfl⟩
  · exact redaction_hides_only_display.1 c7Cmd [] [] c7R c7P1 c7P2
      (List.Forall₂.cons
        ⟨rfl, fun h => absurd (List.mem_cons_self _ _) h⟩ List.Forall₂.nil)
  · exact redaction_hides_only_display.2 c7Cmd [] c7P1

/-- Witness for C6: the concrete argument list (a scalar, a recipe with a
target, a homogeneous recipe list, a path) and keyword map. -/
theorem scanner_modes_replace_only_recipes_witness :
    argsMode .normal (scanParams c6Args c6Kwargs) = c6Args
  ∧ (argsMode .results (scanParams c6Args c6Kwargs)).get? 0 =
      Option.some (.primV (("x").data))
  ∧ (argsMode .results (scanParams c6Args c6Kwargs)).get? 1 =
      Option.some (.primV (("res1").data))
  ∧ (argsMode .targets (scanParams c6Args c6Kwargs)).get? 1 =
      Option.some (.pathV (("t1").data))
  ∧ (argsMode .results (scanParams c6Args c6Kwargs)).get? 2 =
      Option.some (.listV [.primV (("r2").data), .primV (("r3").data)])
  ∧ (argsMode .targets (scanParams c6Args c6Kwargs)).get? 2 =
      Option.some (.listV [.recipeV (.primV (("r2").data)) Option.none,
        .pathV (("t3").data)])
  ∧ (argsMode .targets (scanParams c6Args c6Kwargs)).get? 3 =
      Option.some (.pathV (("p").data))
  ∧ kwGet (kwargsMode .results (scanParams c6Args c6Kwargs)) (("k").data) =
      Option.some (.primV (("rk").data))
  ∧ kwGet (kwargsMode .targets (scanParams c6Args c6Kwargs)) (("k").data) =
      Option.some (.recipeV (.primV (("rk").data)) Option.none)
  ∧ kwGet (kwargsMode .targets (scanParams c6Args c6Kwargs)) (("n").data) =
      Option.some (.primV (("plain").data)) := by
  refine ⟨(scanner_modes_replace_only_recipes c6Args c6Kwargs).1,
    ((scanner_modes_replace_only_recipes c6Args c6Kwargs).2.2.1 0 _ rfl).1
      (by intro h; cases h) |>.1,
    ((scanner_modes_replace_only_recipes c6Args c6Kwargs).2.2.1 1 _ rfl).2 rfl |>.1,
    ((scanner_modes_replace_only_recipes c6Args c6Kwargs).2.2.1 1 _ rfl).2 rfl |>.2,
    ((scanner_modes_replace_only_recipes c6Args c6Kwargs).2.2.1 2 _ rfl).2 rfl |>.1,
    ((scanner_modes_replace_only_recipes c6Args c6Kwargs).2.2.1 2 _ rfl).2 rfl |>.2,
    ((scanner_modes_replace_only_recipes c6Args c6Kwargs).2.2.1 3 _ rfl).1
      (by intro h; cases h) |>.2,
    ((scanner_modes_replace_only_recipes c6Args c6Kwargs).2.2.2 (by decide)
      (("k").data) _ rfl).2 rfl |>.1,
    ((scanner_modes_replace_only_recipes c6Args c6Kwargs).2.2.2 (by decide)
      (("k").data) _ rfl).2 rfl |>.2,
    ((scanner_modes_replace_only_recipes c6Args c6Kwargs).2.2.2 (by decide)
      (("n").data) _ rfl).1 (by intro h; cases h) |>.2⟩

end Xeno
